import Mathlib

/-!
Shallow embedding of the notion-lite-mcp core: identifier normalization
(`cache.py`), Markdown/block conversion (`markdown.py`), schema-driven
property mapping and tool handlers (`server.py`).  Strings are embedded as
`List Char` (ASCII; the Python code is only exercised on ASCII data and the
regexes involved are modelled at that granularity).  Python dicts appear as
ordered association lists, matching insertion order.  Fallible or external
async calls (the SQLite registry, the remote API) are passed in as explicit
environments, with the calls a handler issues collected in a trace list.
-/

namespace NotionLite

abbrev Str := List Char

/-! ## cache.py: identifier normalization and the name registry -/

def UUID_LENGTH : Nat := 32

def HEX_CHARS : List Char :=
  "0123456789abcdef".toList

/-- Source `normalize_id`: `page_id.replace("-", "")`. -/
def normalize_id (page_id : Str) : Str :=
  page_id.filter (fun c => c ≠ '-')

/-- Source `format_id`: insert dashes at 8/12/16/20 when the dash-free form has
exactly 32 characters, otherwise return the input unchanged. -/
def format_id (page_id : Str) : Str :=
  let clean := normalize_id page_id
  if clean.length ≠ UUID_LENGTH then page_id
  else
    clean.take 8 ++ '-' :: ((clean.drop 8).take 4) ++ '-' :: ((clean.drop 12).take 4)
      ++ '-' :: ((clean.drop 16).take 4) ++ '-' :: clean.drop 20

/-- Source `is_valid_uuid`: `len(value) == 32 and all(c in HEX_CHARS for c in value.lower())`.
Note the `.lower()`: the hex test is applied to the lowercased characters. -/
def is_valid_uuid (value : Str) : Bool :=
  value.length = UUID_LENGTH && (value.map Char.toLower).all (fun c => HEX_CHARS.contains c)

/-- One row of the SQLite `pages` table. -/
structure CacheRow where
  id : Str := []
  name : Str := []
  type : Str := []
  path : Str := []
deriving DecidableEq

def strLower (s : Str) : Str := s.map Char.toLower

/-- Source `get_by_name`: `SELECT * FROM pages WHERE LOWER(name) = LOWER(?)`,
first row or none. -/
def get_by_name (registry : List CacheRow) (name : Str) : Option CacheRow :=
  registry.find? (fun r => strLower r.name == strLower name)

/-- Source `resolve_id`: short-circuit on a valid undashed uuid, otherwise look
the token up by name; unresolved names fall through unchanged. -/
def resolve_id (registry : List CacheRow) (name_or_id : Str) : Str :=
  let clean := normalize_id name_or_id
  if is_valid_uuid clean then format_id clean
  else
    match get_by_name registry name_or_id with
    | some cached => format_id cached.id
    | none => name_or_id

/-- Source `search_cache`: `name LIKE '%q%' OR path LIKE '%q%'` (SQLite LIKE is
case-insensitive on ASCII). -/
def likeContains (field pat : Str) : Bool :=
  decide (strLower pat <:+: strLower field)

def search_cache (registry : List CacheRow) (query : Str) : List CacheRow :=
  registry.filter (fun r => likeContains r.name query || likeContains r.path query)

/-! ## markdown.py: rich-text runs and the inline regex scanner

A rich-text element `{"type": "text", "text": {"content": ..., "link": ...},
"annotations": {...}}` is embedded as a record of its content, its two style
flags and its optional link target; an absent key and a false/None value are
identified, which is exactly how the code reads them back (`.get` defaults). -/

structure Run where
  content : Str
  bold : Bool := false
  italic : Bool := false
  link : Option Str := none
deriving DecidableEq

/-- Source `_make_text`. -/
def mkText (content : Str) : Run := { content := content }

/-- Source `_make_link`. -/
def mkLink (text url : Str) : Run := { content := text, link := some url }

/-- Source `_make_bold`. -/
def mkBold (content : Str) : Run := { content := content, bold := true }

/-- Source `_make_italic`. -/
def mkItalic (content : Str) : Run := { content := content, italic := true }

/-- Closing scan for the lazy `(.+?)\*` tail of the italic alternative: the
shortest (possibly empty here) run of non-newline characters followed by `*`.
`.` does not match a newline, so a newline aborts the alternative. -/
def scanClose1 : Str → Option (Str × Str)
  | '*' :: rest => some ([], rest)
  | c :: rest =>
    if c = '\n' then none
    else (scanClose1 rest).map (fun pr => (c :: pr.1, pr.2))
  | [] => none

/-- Closing scan for the lazy `(.+?)\*\*` tail of the bold alternative. -/
def scanClose2 : Str → Option (Str × Str)
  | '*' :: '*' :: rest => some ([], rest)
  | c :: rest =>
    if c = '\n' then none
    else (scanClose2 rest).map (fun pr => (c :: pr.1, pr.2))
  | [] => none

/-- The alternative `\*\*(.+?)\*\*` of `INLINE_PATTERN`, anchored at the head of
the input: two stars, a shortest nonempty non-newline content, two stars. -/
def matchBold : Str → Option (Str × Str)
  | '*' :: '*' :: c :: rest =>
    if c = '\n' then none
    else (scanClose2 rest).map (fun pr => (c :: pr.1, pr.2))
  | _ => none

/-- The alternative `\*(.+?)\*` of `INLINE_PATTERN`, anchored at the head. -/
def matchItalic : Str → Option (Str × Str)
  | '*' :: c :: rest =>
    if c = '\n' then none
    else (scanClose1 rest).map (fun pr => (c :: pr.1, pr.2))
  | _ => none

/-- The alternative `\[([^\]]+)\]\(([^)]+)\)` of `INLINE_PATTERN`, anchored at
the head: the negated classes make the match deterministic (text runs to the
first `]`, url to the first `)`), and both groups must be nonempty. -/
def matchLink : Str → Option (Str × Str × Str)
  | '[' :: rest =>
    let t := rest.takeWhile (fun c => c ≠ ']')
    match rest.dropWhile (fun c => c ≠ ']') with
    | ']' :: '(' :: r2 =>
      if t.isEmpty then none
      else
        let u := r2.takeWhile (fun c => c ≠ ')')
        match r2.dropWhile (fun c => c ≠ ')') with
        | ')' :: r4 => if u.isEmpty then none else some (t, u, r4)
        | _ => none
    | _ => none
  | _ => none

/-- The plain-text segment accumulated between matches, flushed as in the
source (`if plain: rich_text.append(_make_text(plain))`). -/
def flushPending (pending : Str) : List Run :=
  if pending.isEmpty then [] else [mkText pending]

/-- Left-to-right scan of `INLINE_PATTERN.finditer`: at each position the
link, bold and italic alternatives compete in that order; on a match the
pending plain text is flushed and the scan resumes after the match, otherwise
the scan advances one character.  The fuel argument makes the recursion
structural; `fuel = text.length` always suffices, since every step consumes at
least one character of the text. -/
def scanRuns : Nat → Str → Str → List Run
  | _, pending, [] => flushPending pending
  | 0, pending, text => flushPending (pending ++ text)
  | fuel + 1, pending, c :: rest =>
    match matchLink (c :: rest) with
    | some (t, u, r) => flushPending pending ++ mkLink t u :: scanRuns fuel [] r
    | none =>
      match matchBold (c :: rest) with
      | some (b, r) => flushPending pending ++ mkBold b :: scanRuns fuel [] r
      | none =>
        match matchItalic (c :: rest) with
        | some (i, r) => flushPending pending ++ mkItalic i :: scanRuns fuel [] r
        | none => scanRuns fuel (pending ++ [c]) rest

/-- Source `parse_rich_text`: scan the inline pattern; if nothing was emitted
(only possible for empty input) fall back to a single plain run. -/
def parse_rich_text (text : Str) : List Run :=
  let rich_text := scanRuns text.length [] text
  if rich_text.isEmpty then [mkText text] else rich_text

/-! ## markdown.py: blocks -/

inductive Block where
  | heading_1 (rich_text : List Run)
  | heading_2 (rich_text : List Run)
  | heading_3 (rich_text : List Run)
  | paragraph (rich_text : List Run)
  | bulleted_list_item (rich_text : List Run)
  | numbered_list_item (rich_text : List Run)
  | quote (rich_text : List Run)
  | divider
  | code (rich_text : List Run) (language : Str)
  | other (tag : Str)
deriving DecidableEq

/-- ASCII whitespace, for `str.strip()` and the regex class `\s`. -/
def isPySpace (c : Char) : Bool :=
  c = ' ' || c = '\t' || c = '\n' || c = '\r' || c = '\x0b' || c = '\x0c'

/-- Python `str.strip()` restricted to ASCII whitespace. -/
def pyStrip (s : Str) : Str :=
  ((s.dropWhile isPySpace).reverse.dropWhile isPySpace).reverse

/-- The regex `^\d+\.\s` (`NUMBERED_LIST_PATTERN`): one or more digits, a dot
and one whitespace character; on a match return the line with the matched
prefix removed (the effect of `NUMBERED_LIST_PATTERN.sub("", line)`). -/
def numberedMatch (line : Str) : Option Str :=
  let digits := line.takeWhile Char.isDigit
  if digits.isEmpty then none
  else
    match line.dropWhile Char.isDigit with
    | '.' :: c :: rest => if isPySpace c then some rest else none
    | _ => none

/-- Source `_parse_line`: fixed-priority prefix classification.  The trailing
`return None` of the Python signature is unreachable (the last branch returns
a paragraph), so the embedding is total. -/
def parseLine (line : Str) : Block :=
  if "### ".toList.isPrefixOf line then .heading_3 (parse_rich_text (line.drop 4))
  else if "## ".toList.isPrefixOf line then .heading_2 (parse_rich_text (line.drop 3))
  else if "# ".toList.isPrefixOf line then .heading_1 (parse_rich_text (line.drop 2))
  else if "> ".toList.isPrefixOf line then .quote (parse_rich_text (line.drop 2))
  else if "- ".toList.isPrefixOf line then .bulleted_list_item (parse_rich_text (line.drop 2))
  else
    match numberedMatch line with
    | some text => .numbered_list_item (parse_rich_text text)
    | none => .paragraph (parse_rich_text line)

/-- Source `markdown_to_blocks`: split on line breaks, skip lines that strip
to nothing, parse the rest in order (the append-inside-a-loop is embedded as
`filterMap`). -/
def markdown_to_blocks (markdown : Str) : List Block :=
  (markdown.splitOn '\n').filterMap (fun line =>
    if (pyStrip line).isEmpty then none else some (parseLine line))

/-- Source `_convert_rich_text_element`: wrap the content in link brackets
first, then bold markers, then italic markers. -/
def convertRichTextElement (rt : Run) : Str :=
  let content := rt.content
  let content :=
    match rt.link with
    | some url => '[' :: content ++ ']' :: '(' :: url ++ [')']
    | none => content
  let content := if rt.bold then '*' :: '*' :: content ++ ['*', '*'] else content
  if rt.italic then '*' :: content ++ ['*'] else content

/-- Source `rich_text_to_markdown`: concatenate the rendered elements. -/
def rich_text_to_markdown (rich_text : List Run) : Str :=
  (rich_text.map convertRichTextElement).flatten

def backtick : Char := Char.ofNat 96

/-- Source `_convert_block` (the converter table plus the placeholder
fallback); `divider` carries no text and `code` renders as a fenced block. -/
def convertBlock : Block → Str
  | .heading_1 rt => '#' :: ' ' :: rich_text_to_markdown rt
  | .heading_2 rt => '#' :: '#' :: ' ' :: rich_text_to_markdown rt
  | .heading_3 rt => '#' :: '#' :: '#' :: ' ' :: rich_text_to_markdown rt
  | .paragraph rt => rich_text_to_markdown rt
  | .bulleted_list_item rt => '-' :: ' ' :: rich_text_to_markdown rt
  | .numbered_list_item rt => '1' :: '.' :: ' ' :: rich_text_to_markdown rt
  | .quote rt => '>' :: ' ' :: rich_text_to_markdown rt
  | .divider => ['-', '-', '-']
  | .code rt lang =>
    backtick :: backtick :: backtick :: lang
      ++ '\n' :: rich_text_to_markdown rt ++ '\n' :: [backtick, backtick, backtick]
  | .other tag => '[' :: tag ++ ' ' :: "block]".toList

/-- Source `blocks_to_markdown`: one line per block, joined by line breaks (no
converter returns None, so the join filter never drops a line). -/
def blocks_to_markdown (blocks : List Block) : Str :=
  List.intercalate ['\n'] (blocks.map convertBlock)

/-! ## server.py: typed property values

A Notion property value is a dict with an optional `"type"` key and one
payload key named after the kind.  `PROPERTY_FORMATTERS` emit only the payload
key (no `"type"`), while `_simplify_properties` dispatches on `get("type", "")`;
the embedding keeps the two apart with an explicit optional type tag. -/

structure TextItem where
  content : Str := []
  plain_text : Option Str := none
deriving DecidableEq

inductive TypedVal where
  | title (items : List TextItem)
  | rich_text (items : List TextItem)
  | number (n : Option ℚ)
  | select (opt : Option Str)
  | multi_select (opts : List Str)
  | date (start : Option Str)
  | checkbox (b : Bool)
  | url (v : Option Str)
  | email (v : Option Str)
  | phone_number (v : Option Str)
  | status (opt : Option Str)
deriving DecidableEq

/-- The payload key a `TypedVal` dict carries. -/
def typedKind : TypedVal → Str
  | .title _ => "title".toList
  | .rich_text _ => "rich_text".toList
  | .number _ => "number".toList
  | .select _ => "select".toList
  | .multi_select _ => "multi_select".toList
  | .date _ => "date".toList
  | .checkbox _ => "checkbox".toList
  | .url _ => "url".toList
  | .email _ => "email".toList
  | .phone_number _ => "phone_number".toList
  | .status _ => "status".toList

structure PropVal where
  type : Option Str := none
  val : TypedVal
deriving DecidableEq

/-- Dict reads `p.get("title", [])` etc.: absent payload keys default like the
Python `.get` calls in `PROPERTY_EXTRACTORS`. -/
def getTitleItems : TypedVal → List TextItem
  | .title l => l
  | _ => []

def getRichTextItems : TypedVal → List TextItem
  | .rich_text l => l
  | _ => []

def getNumber : TypedVal → Option ℚ
  | .number n => n
  | _ => none

def getSelect : TypedVal → Option Str
  | .select o => o
  | _ => none

def getMulti : TypedVal → List Str
  | .multi_select l => l
  | _ => []

def getDate : TypedVal → Option Str
  | .date s => s
  | _ => none

def getCheckbox : TypedVal → Option Bool
  | .checkbox b => some b
  | _ => none

def getUrl : TypedVal → Option Str
  | .url v => v
  | _ => none

def getEmail : TypedVal → Option Str
  | .email v => v
  | _ => none

def getPhone : TypedVal → Option Str
  | .phone_number v => v
  | _ => none

def getStatus : TypedVal → Option Str
  | .status o => o
  | _ => none

/-- The plain scalars `_simplify_properties` produces (Python is untyped; the
embedding keeps one constructor per shape the extractors can return). -/
inductive SimpleVal where
  | s (v : Str)
  | n (v : Option ℚ)
  | optStr (v : Option Str)
  | optBool (v : Option Bool)
  | strs (v : List Str)
deriving DecidableEq

/-- Concatenation `"".join(t.get("plain_text", "") for t in items)`. -/
def joinPlain (items : List TextItem) : Str :=
  (items.map (fun t => t.plain_text.getD [])).flatten

/-- Source `PROPERTY_EXTRACTORS`, a dict from kind to extractor looked up with
`.get`. -/
def PROPERTY_EXTRACTORS (kind : Str) : Option (PropVal → SimpleVal) :=
  if kind = "title".toList then some (fun p => .s (joinPlain (getTitleItems p.val)))
  else if kind = "rich_text".toList then some (fun p => .s (joinPlain (getRichTextItems p.val)))
  else if kind = "number".toList then some (fun p => .n (getNumber p.val))
  else if kind = "select".toList then some (fun p => .optStr (getSelect p.val))
  else if kind = "multi_select".toList then some (fun p => .strs (getMulti p.val))
  else if kind = "date".toList then some (fun p => .optStr (getDate p.val))
  else if kind = "checkbox".toList then some (fun p => .optBool (getCheckbox p.val))
  else if kind = "url".toList then some (fun p => .optStr (getUrl p.val))
  else if kind = "email".toList then some (fun p => .optStr (getEmail p.val))
  else if kind = "phone_number".toList then some (fun p => .optStr (getPhone p.val))
  else if kind = "status".toList then some (fun p => .optStr (getStatus p.val))
  else none

/-- The flat values a caller can put in the `properties` argument: scalars,
string lists, `None`, or an already-formatted Notion value (a dict keyed by
its kind). -/
inductive FlatVal where
  | s (v : Str)
  | n (v : ℚ)
  | b (v : Bool)
  | strs (v : List Str)
  | noneV
  | pre (v : TypedVal)
deriving DecidableEq

/-- Python truthiness of the flat values. -/
def pyTruthy : FlatVal → Bool
  | .s v => !v.isEmpty
  | .n v => v ≠ 0
  | .b v => v
  | .strs v => !v.isEmpty
  | .noneV => false
  | .pre _ => true

/-- Python `str()` on the values the development exercises: strings are
returned verbatim, booleans and None render as their literal names.  The
textual form of numbers, lists and dicts is never needed by a stated property
and is left as the empty string. -/
def pyStr : FlatVal → Str
  | .s v => v
  | .b true => "True".toList
  | .b false => "False".toList
  | .noneV => "None".toList
  | _ => []

/-- Python `float()` on the values the development exercises (numbers and
booleans); on the remaining shapes `float` raises in Python and the result is
never used here. -/
def pyFloat : FlatVal → ℚ
  | .n v => v
  | .b true => 1
  | .b false => 0
  | _ => 0

def format_title (value : FlatVal) : TypedVal :=
  .title [{ content := pyStr value }]

def format_rich_text (value : FlatVal) : TypedVal :=
  .rich_text [{ content := pyStr value }]

/-- Source `_format_number`: `float(value) if value is not None else None`. -/
def format_number (value : FlatVal) : TypedVal :=
  match value with
  | .noneV => .number none
  | v => .number (some (pyFloat v))

def format_select (value : FlatVal) : TypedVal :=
  .select (if pyTruthy value then some (pyStr value) else none)

/-- Source `_format_multi_select`: a list input becomes one option per element
(`str` on a string is the identity), anything else a single option. -/
def format_multi_select (value : FlatVal) : TypedVal :=
  match value with
  | .strs l => .multi_select l
  | v => .multi_select [pyStr v]

def format_date (value : FlatVal) : TypedVal :=
  .date (if pyTruthy value then some (pyStr value) else none)

def format_checkbox (value : FlatVal) : TypedVal :=
  .checkbox (pyTruthy value)

def format_url (value : FlatVal) : TypedVal :=
  .url (if pyTruthy value then some (pyStr value) else none)

def format_email (value : FlatVal) : TypedVal :=
  .email (if pyTruthy value then some (pyStr value) else none)

def format_phone_number (value : FlatVal) : TypedVal :=
  .phone_number (if pyTruthy value then some (pyStr value) else none)

def format_status (value : FlatVal) : TypedVal :=
  .status (if pyTruthy value then some (pyStr value) else none)

/-- Source `PROPERTY_FORMATTERS` looked up with `.get`. -/
def PROPERTY_FORMATTERS (kind : Str) : Option (FlatVal → TypedVal) :=
  if kind = "title".toList then some format_title
  else if kind = "rich_text".toList then some format_rich_text
  else if kind = "number".toList then some format_number
  else if kind = "select".toList then some format_select
  else if kind = "multi_select".toList then some format_multi_select
  else if kind = "date".toList then some format_date
  else if kind = "checkbox".toList then some format_checkbox
  else if kind = "url".toList then some format_url
  else if kind = "email".toList then some format_email
  else if kind = "phone_number".toList then some format_phone_number
  else if kind = "status".toList then some format_status
  else none

/-- Ordered-dict lookup: first entry with the given key. -/
def dictGet {α : Type} (m : List (Str × α)) (k : Str) : Option α :=
  (m.find? (fun e => e.1 == k)).map (fun e => e.2)

/-- Source `_simplify_properties`: dispatch on `prop.get("type", "")`; unknown
kinds render as the bracketed placeholder. -/
def simplify_properties (properties : List (Str × PropVal)) : List (Str × SimpleVal) :=
  properties.map (fun e =>
    let prop_type := e.2.type.getD []
    match PROPERTY_EXTRACTORS prop_type with
    | some extractor => (e.1, extractor e.2)
    | none => (e.1, .s ('[' :: prop_type ++ [']'])))

/-- The schema passed to `_format_properties_for_db`: property name to the
`prop_def.get("type")` string. -/
abbrev Schema := List (Str × Str)

/-- The `formatter = PROPERTY_FORMATTERS.get(prop_type); if formatter: ...`
tail of the property loop. -/
def formatAndAdd (formatted : List (Str × PropVal)) (pn prop_type : Str) (value : FlatVal) :
    List (Str × PropVal) :=
  match PROPERTY_FORMATTERS prop_type with
  | some f => formatted ++ [(pn, { val := f value })]
  | none => formatted

/-- The schema's designated title property: the first entry of kind "title". -/
def titlePropName (schema : Schema) : Option Str :=
  (schema.find? (fun e => e.2 == "title".toList)).map (fun e => e.1)

/-- One iteration of the property loop of `_format_properties_for_db`: skip
the title key and unknown names, pass through values already keyed by their
kind, otherwise apply the kind's formatter. -/
def fpdbStep (schema : Schema) (title_prop_name : Option Str)
    (formatted : List (Str × PropVal)) (e : Str × FlatVal) : List (Str × PropVal) :=
  if title_prop_name = some e.1 then formatted
  else
    match dictGet schema e.1 with
    | none => formatted
    | some prop_type =>
      match e.2 with
      | .pre tv =>
        if typedKind tv == prop_type then formatted ++ [(e.1, { val := tv })]
        else formatAndAdd formatted e.1 prop_type e.2
      | _ => formatAndAdd formatted e.1 prop_type e.2

/-- Source `_format_properties_for_db`: set the schema's title property from
the explicit title argument, then run the property loop over the user
properties in order. -/
def format_properties_for_db (user_props : List (Str × FlatVal)) (schema : Schema)
    (title : Str) : List (Str × PropVal) :=
  let title_prop_name := titlePropName schema
  let init : List (Str × PropVal) :=
    match title_prop_name with
    | some n => [(n, { val := format_title (.s title) })]
    | none => []
  user_props.foldl (fpdbStep schema title_prop_name) init

/-! ## markdown.py: title extraction (reads API-shaped properties) -/

def TITLE_PROPERTY_NAMES : List Str :=
  ["title".toList, "Title".toList, "Name".toList, "name".toList]

def DEFAULT_TITLE : Str := "Untitled".toList

/-- Source `_extract_title_from_property`: only a property tagged
`"type": "title"` with a nonempty title array yields a value. -/
def extractTitleFromProperty (prop : Option PropVal) : Option Str :=
  match prop with
  | none => none
  | some p =>
    if p.type ≠ some "title".toList then none
    else
      match getTitleItems p.val with
      | [] => none
      | items => some (joinPlain items)

/-- The `if title:` truthiness guard of the two lookup loops. -/
def nonEmptyOpt (o : Option Str) : Option Str :=
  match o with
  | some t => if t.isEmpty then none else some t
  | none => none

structure Page where
  id : Str := []
  url : Str := []
  properties : List (Str × PropVal) := []
deriving DecidableEq

/-- Source `extract_title`: conventional names first, then any title-typed
property in map order, else "Untitled". -/
def extract_title (page : Page) : Str :=
  match TITLE_PROPERTY_NAMES.findSome?
      (fun pn => nonEmptyOpt (extractTitleFromProperty (dictGet page.properties pn))) with
  | some t => t
  | none =>
    match page.properties.findSome?
        (fun e => nonEmptyOpt (extractTitleFromProperty (some e.2))) with
    | some t => t
    | none => DEFAULT_TITLE

/-! ## server.py: tool handlers

Each handler is embedded as a pure function of an environment (the registry
contents and the responses of the remote API) and its argument record (a
missing string argument is the empty string, matching `args.get(name, "")`).
It returns the response or the raised validation error, paired with the trace
of registry/API calls it performed, in order. -/

def MAX_SEARCH_RESULTS : Nat := 10

def DEFAULT_QUERY_LIMIT : Nat := 100

structure Database where
  properties : Schema := []
deriving DecidableEq

/-- An opaque Notion filter object, passed through to the API verbatim. -/
structure FilterObj where
  raw : Str := []
deriving DecidableEq

structure QueryItem where
  id : Str := []
  url : Str := []
  properties : List (Str × PropVal) := []
deriving DecidableEq

/-- A raw search result item: a page (with properties) or a database (with a
top-level title array; `none` models an absent `"title"` key). -/
structure SearchItem extends Page where
  object : Str := "page".toList
  title : Option (List TextItem) := none
deriving DecidableEq

structure ApiHit where
  id : Str := []
  name : Str := []
  type : Str := []
  url : Str := []
deriving DecidableEq

structure CacheHit where
  id : Str := []
  name : Str := []
  type : Str := []
  path : Str := []
deriving DecidableEq

/-- Source `_format_search_result`. -/
def format_search_result (item : SearchItem) : ApiHit :=
  let item_type := item.object
  let name :=
    if item_type = "page".toList then extract_title item.toPage
    else
      match item.title.getD [{}] with
      | [] => DEFAULT_TITLE
      | t :: _ => t.plain_text.getD DEFAULT_TITLE
  { id := item.id, name := name, type := item_type, url := item.url }

inductive Call where
  | cacheSearch (query : Str)
  | cacheGetByName (name : Str)
  | cachePut (id name : Str)
  | apiSearch (query : Str) (filter_type : Option Str)
  | apiGetPage (id : Str)
  | apiGetBlocks (id : Str)
  | apiGetDatabase (id : Str)
  | apiCreatePage (parent_id title : Str)
  | apiUpdatePage (id : Str)
  | apiAppendBlocks (id : Str) (blocks : List Block)
  | apiDeleteBlock (id : Str)
  | apiQueryDatabase (id : Str)
  | apiUpdateDatabase (id : Str)
deriving DecidableEq

/-- The registry lookups `resolve_id` performs: none when the token
short-circuits as a well-formed identifier, otherwise one name lookup. -/
def resolveTrace (t : Str) : List Call :=
  if is_valid_uuid (normalize_id t) then [] else [.cacheGetByName t]

/-- The environment a handler runs against: registry contents plus remote API
responses.  `apiGetDatabase` returning `none` models the API call raising. -/
structure Env where
  registry : List CacheRow := []
  apiSearch : Str → Option Str → List SearchItem := fun _ _ => []
  apiGetPage : Str → Page := fun _ => {}
  apiGetBlocks : Str → List Block := fun _ => []
  apiGetDatabase : Str → Option Database := fun _ => none
  apiCreatePage : Str → Str → Option (List (Str × PropVal)) → Option (List Block) → Bool → Page :=
    fun _ _ _ _ _ => {}
  apiQueryDatabase : Str → Option FilterObj → Nat → List QueryItem := fun _ _ _ => []

inductive ToolOut where
  | searchCache (results : List CacheHit)
  | searchApi (results : List ApiHit)
  | page (id title url content : Str)
  | created (id url title : Str)
  | updatedPage (id : Str)
  | archived (id : Str)
  | queryResults (count : Nat) (results : List (Str × Str × List (Str × SimpleVal)))
  | updatedDb (id : Str)
deriving DecidableEq

abbrev HandlerResult := Except Str ToolOut × List Call

/-- Truthiness of an optional string argument. -/
def optTruthy (o : Option Str) : Bool :=
  match o with
  | some t => !t.isEmpty
  | none => false

structure SearchArgs where
  query : Str := []
  type : Option Str := none
deriving DecidableEq

/-- Source `_handle_search`: validate, try the cache (with the optional type
filter), fall back to the API capped at `MAX_SEARCH_RESULTS`. -/
def handle_search (env : Env) (args : SearchArgs) : HandlerResult :=
  let query := args.query
  let filter_type := args.type
  if query.isEmpty then (.error "query is required".toList, [])
  else
    let cached := search_cache env.registry query
    let fallback := fun (trace : List Call) =>
      let api_results := env.apiSearch query filter_type
      ((.ok (.searchApi ((api_results.take MAX_SEARCH_RESULTS).map format_search_result)) :
          Except Str ToolOut),
        trace ++ [.apiSearch query filter_type])
    if !cached.isEmpty then
      let cached2 :=
        if optTruthy filter_type then cached.filter (fun r => r.type == filter_type.getD [])
        else cached
      if !cached2.isEmpty then
        (.ok (.searchCache (cached2.map (fun r =>
          { id := format_id r.id, name := r.name, type := r.type, path := r.path }))),
          [.cacheSearch query])
      else fallback [.cacheSearch query]
    else fallback [.cacheSearch query]

structure GetPageArgs where
  id : Str := []
deriving DecidableEq

/-- Source `_handle_get_page`. -/
def handle_get_page (env : Env) (args : GetPageArgs) : HandlerResult :=
  if args.id.isEmpty then (.error "id is required".toList, [])
  else
    let resolved_id := resolve_id env.registry args.id
    let page := env.apiGetPage resolved_id
    let blocks := env.apiGetBlocks resolved_id
    (.ok (.page resolved_id (extract_title page) page.url (blocks_to_markdown blocks)),
      resolveTrace args.id ++ [.apiGetPage resolved_id, .apiGetBlocks resolved_id])

structure CreatePageArgs where
  parent : Str := []
  title : Str := []
  content : Str := []
  properties : Option (List (Str × FlatVal)) := none
deriving DecidableEq

/-- Source `_handle_create_page`, with `_is_database` inlined: the cache
shortcut avoids the probing API call, and the schema fetch raises through when
the API call fails. -/
def handle_create_page (env : Env) (args : CreatePageArgs) : HandlerResult :=
  if args.parent.isEmpty || args.title.isEmpty then
    (.error "parent and title are required".toList, [])
  else
    let parent_id := resolve_id env.registry args.parent
    let cachedParent := get_by_name env.registry args.parent
    let isDbShort :=
      match cachedParent with
      | some c => c.type == "database".toList
      | none => false
    let is_database := isDbShort || (env.apiGetDatabase parent_id).isSome
    let probeTrace := resolveTrace args.parent ++ [Call.cacheGetByName args.parent]
      ++ (if isDbShort then [] else [Call.apiGetDatabase parent_id])
    let children := if !args.content.isEmpty then some (markdown_to_blocks args.content) else none
    if is_database then
      match env.apiGetDatabase parent_id with
      | none => (.error "notion_api.get_database failed".toList,
          probeTrace ++ [Call.apiGetDatabase parent_id])
      | some db =>
        let db_properties :=
          some (format_properties_for_db (args.properties.getD []) db.properties args.title)
        let page := env.apiCreatePage parent_id args.title db_properties children true
        (.ok (.created page.id page.url args.title),
          probeTrace ++ [Call.apiGetDatabase parent_id,
            Call.apiCreatePage parent_id args.title, Call.cachePut page.id args.title])
    else
      let page := env.apiCreatePage parent_id args.title none children false
      (.ok (.created page.id page.url args.title),
        probeTrace ++ [Call.apiCreatePage parent_id args.title, Call.cachePut page.id args.title])

structure UpdatePageArgs where
  id : Str := []
  properties : Option (List (Str × FlatVal)) := none
  append : Option Str := none
deriving DecidableEq

/-- Truthiness of the optional raw properties argument (an empty dict is
falsy). -/
def propsTruthy (o : Option (List (Str × FlatVal))) : Bool :=
  match o with
  | some l => !l.isEmpty
  | none => false

/-- Source `_handle_update_page`: optional property write, optional append. -/
def handle_update_page (env : Env) (args : UpdatePageArgs) : HandlerResult :=
  if args.id.isEmpty then (.error "id is required".toList, [])
  else
    let resolved_id := resolve_id env.registry args.id
    let updCalls := if propsTruthy args.properties then [Call.apiUpdatePage resolved_id] else []
    let appendCalls :=
      if optTruthy args.append then
        [Call.apiAppendBlocks resolved_id (markdown_to_blocks (args.append.getD []))]
      else []
    (.ok (.updatedPage resolved_id), resolveTrace args.id ++ updCalls ++ appendCalls)

structure DeletePageArgs where
  id : Str := []
deriving DecidableEq

/-- Source `_handle_delete_page`. -/
def handle_delete_page (env : Env) (args : DeletePageArgs) : HandlerResult :=
  if args.id.isEmpty then (.error "id is required".toList, [])
  else
    let resolved_id := resolve_id env.registry args.id
    (.ok (.archived resolved_id), resolveTrace args.id ++ [.apiDeleteBlock resolved_id])

structure QueryDatabaseArgs where
  id : Str := []
  filter : Option FilterObj := none
  limit : Option Nat := none
deriving DecidableEq

/-- Source `_handle_query_database`. -/
def handle_query_database (env : Env) (args : QueryDatabaseArgs) : HandlerResult :=
  if args.id.isEmpty then (.error "id is required".toList, [])
  else
    let resolved_id := resolve_id env.registry args.id
    let limit := args.limit.getD DEFAULT_QUERY_LIMIT
    let results := env.apiQueryDatabase resolved_id args.filter limit
    let formatted := results.map (fun item =>
      (item.id, item.url, simplify_properties item.properties))
    (.ok (.queryResults formatted.length formatted),
      resolveTrace args.id ++ [.apiQueryDatabase resolved_id])

structure UpdateDatabaseArgs where
  id : Str := []
  title : Option Str := none
  properties : Option Schema := none
deriving DecidableEq

/-- Source `_handle_update_database`. -/
def handle_update_database (env : Env) (args : UpdateDatabaseArgs) : HandlerResult :=
  if args.id.isEmpty then (.error "id is required".toList, [])
  else
    let resolved_id := resolve_id env.registry args.id
    (.ok (.updatedDb resolved_id), resolveTrace args.id ++ [.apiUpdateDatabase resolved_id])

/-! ## Claim-side definitions

The definitions below state the claims' own wording (classification rules,
safety predicates, expected round-trip values); they are compared against the
source embeddings above, never used inside them. -/

/-- Claim C5 as stated: the numbered-item test is a digit sequence followed by
the two-character separator `". "` (a dot and a space). -/
def classifyLineClaim (line : Str) : Block :=
  if "### ".toList.isPrefixOf line then .heading_3 (parse_rich_text (line.drop 4))
  else if "## ".toList.isPrefixOf line then .heading_2 (parse_rich_text (line.drop 3))
  else if "# ".toList.isPrefixOf line then .heading_1 (parse_rich_text (line.drop 2))
  else if "> ".toList.isPrefixOf line then .quote (parse_rich_text (line.drop 2))
  else if "- ".toList.isPrefixOf line then .bulleted_list_item (parse_rich_text (line.drop 2))
  else if !(line.takeWhile Char.isDigit).isEmpty
      && ". ".toList.isPrefixOf (line.dropWhile Char.isDigit) then
    .numbered_list_item (parse_rich_text ((line.dropWhile Char.isDigit).drop 2))
  else .paragraph (parse_rich_text line)

/-- Claim C5's whole-document description, as stated. -/
def mdToBlocksClaim (markdown : Str) : List Block :=
  (markdown.splitOn '\n').filterMap (fun line =>
    if (pyStrip line).isEmpty then none else some (classifyLineClaim line))

/-- Claim C5 amended: the separator after the digits is a dot followed by one
whitespace character (the regex is `^\d+\.\s`, so a tab also qualifies). -/
def classifyLineAmended (line : Str) : Block :=
  if "### ".toList.isPrefixOf line then .heading_3 (parse_rich_text (line.drop 4))
  else if "## ".toList.isPrefixOf line then .heading_2 (parse_rich_text (line.drop 3))
  else if "# ".toList.isPrefixOf line then .heading_1 (parse_rich_text (line.drop 2))
  else if "> ".toList.isPrefixOf line then .quote (parse_rich_text (line.drop 2))
  else if "- ".toList.isPrefixOf line then .bulleted_list_item (parse_rich_text (line.drop 2))
  else if !(line.takeWhile Char.isDigit).isEmpty
      && ((line.dropWhile Char.isDigit).head? == some '.')
      && ((((line.dropWhile Char.isDigit).drop 1).head?.map isPySpace).getD false) then
    .numbered_list_item (parse_rich_text ((line.dropWhile Char.isDigit).drop 2))
  else .paragraph (parse_rich_text line)

/-- Amended whole-document description. -/
def mdToBlocksAmended (markdown : Str) : List Block :=
  (markdown.splitOn '\n').filterMap (fun line =>
    if (pyStrip line).isEmpty then none else some (classifyLineAmended line))

/-- Characters that take no part in any inline marker or prefix machinery. -/
def safeChar (c : Char) : Bool :=
  !(c = '*' || c = '[' || c = ']' || c = '(' || c = ')' || c = '\n')

def safeContent (s : Str) : Bool :=
  !s.isEmpty && s.all safeChar

def urlOk : Option Str → Bool
  | none => true
  | some u => !u.isEmpty && u.all (fun c => c ≠ ')' && c ≠ '\n')

def isPlainRun (r : Run) : Bool :=
  !r.bold && !r.italic && r.link.isNone

def styleCount (r : Run) : Nat :=
  (if r.bold then 1 else 0) + (if r.italic then 1 else 0) + (if r.link.isSome then 1 else 0)

/-- A run the inline syntax can faithfully carry: nonempty marker-free
content, a well-formed link target, at most one style layer. -/
def safeRun (r : Run) : Bool :=
  safeContent r.content && urlOk r.link && decide (styleCount r ≤ 1)

/-- No two consecutive unstyled runs (those merge into one on re-parse). -/
def noAdjacentPlain : List Run → Bool
  | r1 :: r2 :: rest => !(isPlainRun r1 && isPlainRun r2) && noAdjacentPlain (r2 :: rest)
  | _ => true

/-- The hypothesis of the amended inline round trip. -/
def runsOK (rs : List Run) : Bool :=
  !rs.isEmpty && rs.all safeRun && noAdjacentPlain rs

/-- Scanner steps needed for a run sequence: one per character of a plain run,
one per styled run. -/
def stepsOf (rs : List Run) : Nat :=
  (rs.map (fun r => if isPlainRun r then r.content.length else 1)).sum

/-- A rendered paragraph line survives the line classifier untouched: it is
not blank and matches none of the line prefixes. -/
def lineIsPlainText (line : Str) : Bool :=
  !(pyStrip line).isEmpty
    && !("### ".toList.isPrefixOf line) && !("## ".toList.isPrefixOf line)
    && !("# ".toList.isPrefixOf line) && !("> ".toList.isPrefixOf line)
    && !("- ".toList.isPrefixOf line) && (numberedMatch line).isNone

/-- The hypothesis of the amended block round trip (claim C1): the seven
single-line rich-text block kinds, with faithful runs; paragraphs must render
to a line the classifier keeps as a paragraph. -/
def blockOK : Block → Bool
  | .heading_1 rt => runsOK rt
  | .heading_2 rt => runsOK rt
  | .heading_3 rt => runsOK rt
  | .paragraph rt => runsOK rt && lineIsPlainText (rich_text_to_markdown rt)
  | .bulleted_list_item rt => runsOK rt
  | .numbered_list_item rt => runsOK rt
  | .quote rt => runsOK rt
  | _ => false

/-- One step of the `_format_properties_for_db` property loop, as the optional
entry it appends (proof infrastructure mirroring the branches of the fold). -/
def procFmtOne (pn prop_type : Str) (value : FlatVal) : Option (Str × PropVal) :=
  (PROPERTY_FORMATTERS prop_type).map (fun f => (pn, ({ val := f value } : PropVal)))

def procOne (schema : Schema) (tn : Option Str) (e : Str × FlatVal) :
    Option (Str × PropVal) :=
  if tn = some e.1 then none
  else
    match dictGet schema e.1 with
    | none => none
    | some prop_type =>
      match e.2 with
      | .pre tv =>
        if typedKind tv == prop_type then some (e.1, { val := tv })
        else procFmtOne e.1 prop_type e.2
      | _ => procFmtOne e.1 prop_type e.2

/-- Tagging formatter output with its schema kind, the way the remote API
reports values back (claim C3's amended reading applies the per-kind
extractors to kind-tagged values). -/
def tagTypes (schema : Schema) (props : List (Str × PropVal)) : List (Str × PropVal) :=
  props.map (fun e => (e.1, { e.2 with type := dictGet schema e.1 }))

/-- The nine supported kinds whose values survive the expand/simplify round
trip (all but title and rich_text). -/
def NINE_KINDS : List Str :=
  ["number".toList, "select".toList, "multi_select".toList, "date".toList,
    "checkbox".toList, "url".toList, "email".toList, "phone_number".toList,
    "status".toList]

/-- A flat value matching a schema kind, restricted to truthy payloads for the
optional-string kinds (a falsy value is formatted as an absent option). -/
def kindMatches (kind : Str) (v : FlatVal) : Bool :=
  if kind = "number".toList then
    (match v with
     | .n _ => true
     | .noneV => true
     | _ => false)
  else if kind = "multi_select".toList then
    (match v with
     | .strs _ => true
     | _ => false)
  else if kind = "checkbox".toList then
    (match v with
     | .b _ => true
     | _ => false)
  else
    (match v with
     | .s s => !s.isEmpty
     | _ => false)

/-- The simple value the extractors hand back for a recovered flat value. -/
def expectedSimple (kind : Str) (v : FlatVal) : SimpleVal :=
  if kind = "number".toList then
    (match v with
     | .n q => .n (some q)
     | _ => .n none)
  else if kind = "multi_select".toList then
    (match v with
     | .strs l => .strs l
     | _ => .strs [])
  else if kind = "checkbox".toList then
    (match v with
     | .b bb => .optBool (some bb)
     | _ => .optBool none)
  else
    (match v with
     | .s s => .optStr (some s)
     | _ => .optStr none)

/-! ## Concrete fixtures for witnesses and counterexamples -/

def hexDemo : Str := "8b431394c095425995c5fc1a127a873a".toList

def zz32 : Str := List.replicate 32 'z'

def upperHex32 : Str := List.replicate 32 'A'

def collectRow : CacheRow :=
  { id := hexDemo, name := "COLLECT".toList, type := "page".toList }

def demoRuns : List Run := [mkText "Hello ".toList, mkBold "world".toList]

def boldItalicRun : Run := { content := "abc".toList, bold := true, italic := true }

def receiptSchema : Schema :=
  [("Name".toList, "title".toList), ("Amount".toList, "number".toList),
    ("Category".toList, "select".toList)]

def receiptProps : List (Str × FlatVal) :=
  [("Amount".toList, .n (85 / 2)), ("Category".toList, .s "Software".toList)]

def demoBlocks : List Block :=
  [Block.heading_1 [mkText "Title".toList],
    Block.paragraph [mkText "Some ".toList, mkBold "bold".toList, mkText " text".toList],
    Block.bulleted_list_item [mkText "Item".toList]]

def env12 : Env :=
  { apiSearch := fun _ _ => List.replicate 12 ({} : SearchItem) }

/-! ## Theorems -/

theorem hex_ne_dash {c : Char} (h : c ∈ HEX_CHARS) : c ≠ '-' := by
  intro hc
  rw [hc] at h
  exact absurd h (by decide)

theorem normalize_of_hex {h : Str} (hhex : ∀ c ∈ h, c ∈ HEX_CHARS) :
    normalize_id h = h := by
  unfold normalize_id
  exact List.filter_eq_self.mpr (fun c hc => by
    simpa using hex_ne_dash (hhex c hc))

theorem filter_dash_of_hex {h : Str} {l : Str} (hhex : ∀ c ∈ h, c ∈ HEX_CHARS)
    (hsub : ∀ c ∈ l, c ∈ h) : l.filter (fun c => c ≠ '-') = l :=
  List.filter_eq_self.mpr (fun c hc => by
    simpa using hex_ne_dash (hhex c (hsub c hc)))

/-- Claim C8 (confirmed): dash insertion then dash removal is the identity on
32-character lowercase hex strings, and re-formatting the normalized form
reproduces the dashed form. -/
theorem c8_dash_roundtrip (h : Str) (hlen : h.length = UUID_LENGTH)
    (hhex : ∀ c ∈ h, c ∈ HEX_CHARS) :
    normalize_id (format_id h) = h ∧
      format_id (normalize_id (format_id h)) = format_id h := by
  have hn : normalize_id h = h := normalize_of_hex hhex
  have hfmt : format_id h =
      h.take 8 ++ '-' :: ((h.drop 8).take 4) ++ '-' :: ((h.drop 12).take 4)
        ++ '-' :: ((h.drop 16).take 4) ++ '-' :: h.drop 20 := by
    unfold format_id
    simp [hn, hlen]
  have hassem : h.take 8 ++ ((h.drop 8).take 4) ++ ((h.drop 12).take 4)
      ++ ((h.drop 16).take 4) ++ h.drop 20 = h := by
    have e20 : (h.drop 16).take 4 ++ h.drop 20 = h.drop 16 := by
      have : (h.drop 16).drop 4 = h.drop 20 := by
        rw [List.drop_drop]
      rw [← this, List.take_append_drop]
    have e16 : (h.drop 12).take 4 ++ h.drop 16 = h.drop 12 := by
      have : (h.drop 12).drop 4 = h.drop 16 := by
        rw [List.drop_drop]
      rw [← this, List.take_append_drop]
    have e8 : (h.drop 8).take 4 ++ h.drop 12 = h.drop 8 := by
      have : (h.drop 8).drop 4 = h.drop 12 := by
        rw [List.drop_drop]
      rw [← this, List.take_append_drop]
    calc h.take 8 ++ ((h.drop 8).take 4) ++ ((h.drop 12).take 4)
          ++ ((h.drop 16).take 4) ++ h.drop 20
        = h.take 8 ++ (((h.drop 8).take 4) ++ (((h.drop 12).take 4)
            ++ (((h.drop 16).take 4) ++ h.drop 20))) := by simp [List.append_assoc]
      _ = h := by rw [e20, e16, e8, List.take_append_drop]
  have hnf : normalize_id (format_id h) = h := by
    rw [hfmt]
    unfold normalize_id
    have hcons : ∀ X : Str,
        List.filter (fun c => decide (c ≠ '-')) ('-' :: X) =
          List.filter (fun c => decide (c ≠ '-')) X := by
      intro X
      simp
    simp only [List.filter_append]
    rw [hcons, hcons, hcons, hcons,
      filter_dash_of_hex hhex (fun c hc => List.take_subset _ _ hc),
      filter_dash_of_hex hhex (fun c hc => List.drop_subset _ _ (List.take_subset _ _ hc)),
      filter_dash_of_hex hhex (fun c hc => List.drop_subset _ _ (List.take_subset _ _ hc)),
      filter_dash_of_hex hhex (fun c hc => List.drop_subset _ _ (List.take_subset _ _ hc)),
      filter_dash_of_hex hhex (fun c hc => List.drop_subset _ _ hc)]
    exact hassem
  exact ⟨hnf, by rw [hnf]⟩

/-- Witness for C8 at the spec's example identifier. -/
theorem c8_dash_roundtrip_witness :
    normalize_id (format_id hexDemo) = hexDemo ∧
      format_id (normalize_id (format_id hexDemo)) = format_id hexDemo :=
  c8_dash_roundtrip hexDemo (by decide) (by decide)

/-- Claim C7 (counterexample): a 32-character non-hex token has a dash-free
form that is not a valid 32-character lowercase hex string, yet `format_id`
does not pass it through — it inserts dashes anyway (only the length is
checked). -/
theorem c7_counterexample :
    ¬((normalize_id zz32).length = UUID_LENGTH ∧
        ∀ c ∈ normalize_id zz32, c ∈ HEX_CHARS) ∧
      format_id zz32 ≠ zz32 := by
  constructor
  · intro hc
    have := hc.2 'z' (by decide)
    revert this
    decide
  · decide

/-- Claim C7 (corrected): pass-through holds exactly when the dash-free form
does not have 32 characters; hexness is not part of the check. -/
theorem c7_passthrough (s : Str) (hlen : (normalize_id s).length ≠ UUID_LENGTH) :
    format_id s = s := by
  unfold format_id
  simp [hlen]

/-- Witness for the amended C7 on a short token. -/
theorem c7_passthrough_witness : format_id "abc123".toList = "abc123".toList :=
  c7_passthrough "abc123".toList (by decide)

/-- Claim C4 (counterexample): a token of 32 uppercase hex characters is not a
32-character lowercase hex string and has no registry entry, so the claim as
stated requires it to come back unchanged; `is_valid_uuid` lowercases before
testing, so the code short-circuits and returns a dashed form instead. -/
theorem c4_counterexample :
    ¬((normalize_id upperHex32).length = UUID_LENGTH ∧
        ∀ c ∈ normalize_id upperHex32, c ∈ HEX_CHARS) ∧
      get_by_name [] upperHex32 = none ∧
      resolve_id [] upperHex32 ≠ upperHex32 := by
  refine ⟨?_, by decide, by decide⟩
  intro hc
  have := hc.2 'A' (by decide)
  revert this
  decide

/-- Claim C4 (corrected): the short-circuit applies whenever the dash-free
form passes the case-insensitive hex test (`is_valid_uuid` lowercases first),
and then no registry state matters; otherwise the registry decides, and an
unresolved name falls through unchanged. -/
theorem c4_resolution (registry : List CacheRow) (t : Str) :
    (is_valid_uuid (normalize_id t) = true →
      resolve_id registry t = format_id (normalize_id t) ∧
        resolve_id registry t = resolve_id [] t) ∧
      (is_valid_uuid (normalize_id t) = false →
        resolve_id registry t =
          match get_by_name registry t with
          | some r => format_id r.id
          | none => t) := by
  constructor
  · intro hv
    constructor <;> simp [resolve_id, hv]
  · intro hv
    simp [resolve_id, hv]

/-- Witness for the amended C4: resolving the cached name COLLECT goes through
the registry branch. -/
theorem c4_resolution_witness :
    resolve_id [collectRow] "COLLECT".toList =
      match get_by_name [collectRow] "COLLECT".toList with
      | some r => format_id r.id
      | none => "COLLECT".toList :=
  (c4_resolution [collectRow] "COLLECT".toList).2 (by decide)

theorem formatAndAdd_eq (formatted : List (Str × PropVal)) (pn prop_type : Str)
    (value : FlatVal) :
    formatAndAdd formatted pn prop_type value =
      formatted ++ (procFmtOne pn prop_type value).toList := by
  unfold formatAndAdd procFmtOne
  cases PROPERTY_FORMATTERS prop_type <;> simp

theorem fpdbStep_eq (schema : Schema) (tn : Option Str) (formatted : List (Str × PropVal))
    (e : Str × FlatVal) :
    fpdbStep schema tn formatted e = formatted ++ (procOne schema tn e).toList := by
  obtain ⟨pn, v⟩ := e
  unfold fpdbStep procOne
  by_cases h1 : tn = some pn
  · simp [h1]
  · simp only [if_neg h1]
    cases h2 : dictGet schema pn with
    | none => simp
    | some pt =>
      cases v with
      | pre tv =>
        by_cases h3 : typedKind tv == pt
        · simp [h3]
        · simp [h3, formatAndAdd_eq]
      | s v => simp [formatAndAdd_eq]
      | n v => simp [formatAndAdd_eq]
      | b v => simp [formatAndAdd_eq]
      | strs v => simp [formatAndAdd_eq]
      | noneV => simp [formatAndAdd_eq]

theorem foldl_fpdbStep (schema : Schema) (tn : Option Str) :
    ∀ (l : List (Str × FlatVal)) (acc : List (Str × PropVal)),
      l.foldl (fpdbStep schema tn) acc = acc ++ l.filterMap (procOne schema tn)
  | [], acc => by simp
  | e :: l, acc => by
    rw [List.foldl_cons, fpdbStep_eq, List.filterMap_cons,
      foldl_fpdbStep schema tn l (acc ++ (procOne schema tn e).toList)]
    cases procOne schema tn e <;> simp

/-- Structure of `_format_properties_for_db`: the title entry first, then one
optional formatted entry per user property, in order. -/
theorem fpdb_structure (user_props : List (Str × FlatVal)) (schema : Schema) (title : Str) :
    format_properties_for_db user_props schema title =
      (match titlePropName schema with
       | some n => [(n, ({ val := format_title (.s title) } : PropVal))]
       | none => []) ++ user_props.filterMap (procOne schema (titlePropName schema)) := by
  unfold format_properties_for_db
  exact foldl_fpdbStep schema (titlePropName schema) user_props _

theorem procFmtOne_name {pn prop_type : Str} {v : FlatVal} {x : Str × PropVal}
    (h : procFmtOne pn prop_type v = some x) : x.1 = pn := by
  unfold procFmtOne at h
  cases h2 : PROPERTY_FORMATTERS prop_type with
  | none => rw [h2] at h; simp at h
  | some f =>
    rw [h2] at h
    simp only [Option.map] at h
    injection h with h
    rw [← h]

theorem procOne_name {schema : Schema} {tn : Option Str} {e : Str × FlatVal}
    {x : Str × PropVal} (h : procOne schema tn e = some x) :
    x.1 = e.1 ∧ tn ≠ some e.1 := by
  obtain ⟨pn, v⟩ := e
  unfold procOne at h
  by_cases h1 : tn = some pn
  · simp [h1] at h
  · refine ⟨?_, h1⟩
    simp only [if_neg h1] at h
    cases h2 : dictGet schema pn with
    | none => rw [h2] at h; simp at h
    | some pt =>
      rw [h2] at h
      cases v with
      | pre tv =>
        by_cases h3 : typedKind tv == pt
        · simp only [h3, if_true] at h
          cases h
          rfl
        · simp only [h3] at h
          exact procFmtOne_name h
      | s v => exact procFmtOne_name h
      | n v => exact procFmtOne_name h
      | b v => exact procFmtOne_name h
      | strs v => exact procFmtOne_name h
      | noneV => exact procFmtOne_name h

/-- Claim C6 (confirmed): when the schema designates a title property, the
output maps it to a title value wrapping the caller-supplied title, and no
entry under that key carries anything else — the flat map's value for that key
is never written. -/
theorem c6_title_always_wins (user_props : List (Str × FlatVal)) (schema : Schema)
    (title : Str) (tn : Str) (ht : titlePropName schema = some tn) :
    (tn, ({ val := format_title (.s title) } : PropVal)) ∈
        format_properties_for_db user_props schema title ∧
      ∀ pv, (tn, pv) ∈ format_properties_for_db user_props schema title →
        pv = { val := format_title (.s title) } := by
  rw [fpdb_structure, ht]
  constructor
  · exact List.mem_append_left _ (by simp)
  · intro pv hm
    rcases List.mem_append.mp hm with hm | hm
    · simpa using hm
    · obtain ⟨e, _, hpe⟩ := List.mem_filterMap.mp hm
      obtain ⟨hname, hne⟩ := procOne_name hpe
      exact absurd (congrArg some hname) hne

/-- Witness for C6: the Receipt schema's Name property gets the explicit
title even though the flat map supplies its own Name value. -/
theorem c6_title_always_wins_witness :
    ("Name".toList, ({ val := format_title (.s "Default".toList) } : PropVal)) ∈
        format_properties_for_db [("Name".toList, .s "Custom".toList)] receiptSchema
          "Default".toList ∧
      ∀ pv, ("Name".toList, pv) ∈
          format_properties_for_db [("Name".toList, .s "Custom".toList)] receiptSchema
            "Default".toList →
        pv = { val := format_title (.s "Default".toList) } :=
  c6_title_always_wins [("Name".toList, .s "Custom".toList)] receiptSchema
    "Default".toList "Name".toList (by decide)

theorem dictGet_cons_pos {α : Type} {e : Str × α} {l : List (Str × α)} {k : Str}
    (h : e.1 = k) : dictGet (e :: l) k = some e.2 := by
  unfold dictGet
  rw [List.find?_cons_of_pos _ (by simpa using h)]
  rfl

theorem dictGet_cons_neg {α : Type} {e : Str × α} {l : List (Str × α)} {k : Str}
    (h : e.1 ≠ k) : dictGet (e :: l) k = dictGet l k := by
  unfold dictGet
  rw [List.find?_cons_of_neg _ (by simpa using h)]

theorem dictGet_cons_pair_pos {α : Type} {n : Str} {x : α} {l : List (Str × α)} {k : Str}
    (h : n = k) : dictGet ((n, x) :: l) k = some x :=
  dictGet_cons_pos h

theorem dictGet_cons_pair_neg {α : Type} {n : Str} {x : α} {l : List (Str × α)} {k : Str}
    (h : n ≠ k) : dictGet ((n, x) :: l) k = dictGet l k :=
  dictGet_cons_neg h

theorem dictGet_filterMap_nodup (schema : Schema) (tno : Option Str) :
    ∀ (l : List (Str × FlatVal)) (pn : Str) (v : FlatVal) (b : PropVal),
      (l.map Prod.fst).Nodup → (pn, v) ∈ l → procOne schema tno (pn, v) = some (pn, b) →
      dictGet (l.filterMap (procOne schema tno)) pn = some b := by
  intro l
  induction l with
  | nil => intro pn v b _ hm; simp at hm
  | cons e l ih =>
    intro pn v b hnd hm hp
    have hnd1 : e.1 ∉ l.map Prod.fst := by
      rw [List.map_cons, List.nodup_cons] at hnd
      exact hnd.1
    have hnd2 : (l.map Prod.fst).Nodup := by
      rw [List.map_cons, List.nodup_cons] at hnd
      exact hnd.2
    rcases List.mem_cons.mp hm with he | hm2
    · rw [List.filterMap_cons, ← he, hp]
      exact dictGet_cons_pos rfl
    · have hpn : e.1 ≠ pn := by
        intro hc
        exact hnd1 (hc ▸ List.mem_map.mpr ⟨(pn, v), hm2, rfl⟩)
      rw [List.filterMap_cons]
      cases hpe : procOne schema tno e with
      | none => exact ih pn v b hnd2 hm2 hp
      | some x =>
        have hx : x.1 = e.1 := (procOne_name hpe).1
        rw [dictGet_cons_neg (hx ▸ hpn)]
        exact ih pn v b hnd2 hm2 hp

/-- Looking a key up in the simplified kind-tagged output dispatches that
key's stored value on its schema kind. -/
theorem dictGet_simplify_tag (schema : Schema) (l : List (Str × PropVal)) (k : Str) :
    dictGet (simplify_properties (tagTypes schema l)) k =
      (dictGet l k).map (fun pv =>
        match PROPERTY_EXTRACTORS ((dictGet schema k).getD []) with
        | some ex => ex { type := dictGet schema k, val := pv.val }
        | none => SimpleVal.s ('[' :: (dictGet schema k).getD [] ++ [']'])) := by
  induction l with
  | nil => rfl
  | cons e l ih =>
    simp only [simplify_properties, tagTypes, List.map_cons] at ih ⊢
    by_cases h : e.1 = k
    · subst h
      cases hex : PROPERTY_EXTRACTORS ((dictGet schema e.1).getD []) with
      | none =>
        simp only [hex]
        rw [dictGet_cons_pair_pos rfl, dictGet_cons_pos rfl]
        rfl
      | some ex =>
        simp only [hex]
        rw [dictGet_cons_pair_pos rfl, dictGet_cons_pos rfl]
        rfl
    · cases hex : PROPERTY_EXTRACTORS ((dictGet schema e.1).getD []) with
      | none =>
        simp only [hex]
        rw [dictGet_cons_pair_neg h, dictGet_cons_neg h, ih]
      | some ex =>
        simp only [hex]
        rw [dictGet_cons_pair_neg h, dictGet_cons_neg h, ih]

/-- For the nine kinds other than title and rich_text, formatting a matching
truthy flat value and extracting it back under its kind tag recovers the
value. -/
theorem kind_roundtrip (k : Str) (v : FlatVal) (hk : k ∈ NINE_KINDS)
    (hm : kindMatches k v = true) :
    ∃ f ex, PROPERTY_FORMATTERS k = some f ∧ PROPERTY_EXTRACTORS k = some ex ∧
      ex { type := some k, val := f v } = expectedSimple k v := by
  simp only [NINE_KINDS, List.mem_cons, List.not_mem_nil, or_false] at hk
  rcases hk with rfl | rfl | rfl | rfl | rfl | rfl | rfl | rfl | rfl <;>
    refine ⟨_, _, rfl, rfl, ?_⟩ <;>
    cases v <;>
    simp_all +decide [kindMatches, expectedSimple, pyTruthy, pyStr, pyFloat,
      format_number, format_select, format_multi_select, format_date, format_checkbox,
      format_url, format_email, format_phone_number, format_status,
      PROPERTY_EXTRACTORS, getNumber, getSelect, getMulti, getDate, getCheckbox,
      getUrl, getEmail, getPhone, getStatus, joinPlain]

theorem kindMatches_not_pre (k : Str) (tv : TypedVal) :
    kindMatches k (FlatVal.pre tv) = false := by
  unfold kindMatches
  split_ifs <;> rfl

/-- Claim C3 (corrected): with the formatter output tagged by its schema kind
(as the remote API reports it back), extraction recovers the original value
for the nine kinds other than title and rich_text; the designated title
property extracts to the empty string, because the formatters write
`text.content` while the extractors read `plain_text`. -/
theorem c3_expand_simplify (schema : Schema) (props : List (Str × FlatVal)) (title : Str)
    (tn : Str) (ht : titlePropName schema = some tn)
    (hnd : (props.map Prod.fst).Nodup) :
    (∀ pn v k, (pn, v) ∈ props → pn ≠ tn → dictGet schema pn = some k →
        k ∈ NINE_KINDS → kindMatches k v = true →
        dictGet (simplify_properties (tagTypes schema
          (format_properties_for_db props schema title))) pn =
          some (expectedSimple k v))
    ∧ (dictGet schema tn = some "title".toList →
        dictGet (simplify_properties (tagTypes schema
          (format_properties_for_db props schema title))) tn = some (.s [])) := by
  constructor
  · intro pn v k hm hpn hsk hk hkm
    obtain ⟨f, ex, hf, hex, hval⟩ := kind_roundtrip k v hk hkm
    have htn_pn : (some tn : Option Str) ≠ some pn := by
      intro hc
      exact hpn (Option.some.inj hc).symm
    have hproc : procOne schema (some tn) (pn, v) = some (pn, { val := f v }) := by
      unfold procOne
      rw [if_neg htn_pn, hsk]
      cases v with
      | pre tv => exact absurd hkm (by simp [kindMatches_not_pre])
      | s w => simp [procFmtOne, hf]
      | n w => simp [procFmtOne, hf]
      | b w => simp [procFmtOne, hf]
      | strs w => simp [procFmtOne, hf]
      | noneV => simp [procFmtOne, hf]
    have hout : dictGet (format_properties_for_db props schema title) pn =
        some ({ val := f v } : PropVal) := by
      rw [fpdb_structure, ht, List.singleton_append,
        dictGet_cons_neg (fun hc => hpn hc.symm)]
      exact dictGet_filterMap_nodup schema (some tn) props pn v _ hnd hm hproc
    rw [dictGet_simplify_tag, hout]
    simp [hsk, hex, hval]
  · intro httn
    have hout : dictGet (format_properties_for_db props schema title) tn =
        some ({ val := format_title (.s title) } : PropVal) := by
      rw [fpdb_structure, ht, List.singleton_append]
      exact dictGet_cons_pos rfl
    rw [dictGet_simplify_tag, hout]
    simp only [Option.map, httn, Option.getD]
    rfl

/-- Claim C3 (counterexample): composing the literal code paths on the spec's
Receipt scenario recovers nothing — the formatters emit no `"type"` key, so
`_simplify_properties` renders every expanded property as the placeholder
`"[]"`, and in particular neither the number 42.5 nor the title come back. -/
theorem c3_counterexample :
    dictGet (simplify_properties (format_properties_for_db receiptProps receiptSchema
        "Receipt".toList)) "Amount".toList = some (.s "[]".toList) ∧
      dictGet (simplify_properties (format_properties_for_db receiptProps receiptSchema
        "Receipt".toList)) "Category".toList = some (.s "[]".toList) ∧
      dictGet (simplify_properties (format_properties_for_db receiptProps receiptSchema
        "Receipt".toList)) "Name".toList = some (.s "[]".toList) ∧
      SimpleVal.s "[]".toList ≠ SimpleVal.n (some (85 / 2 : ℚ)) := by
  refine ⟨by decide, by decide, by decide, by decide⟩

/-- Witness for the amended C3 on the Receipt scenario's number property. -/
theorem c3_expand_simplify_witness :
    dictGet (simplify_properties (tagTypes receiptSchema
        (format_properties_for_db receiptProps receiptSchema "Receipt".toList)))
      "Amount".toList = some (expectedSimple "number".toList (.n (85 / 2))) :=
  (c3_expand_simplify receiptSchema receiptProps "Receipt".toList "Name".toList
      (by decide) (by decide)).1
    "Amount".toList (.n (85 / 2)) "number".toList
    (by unfold receiptProps; exact List.mem_cons_self _ _) (by decide) (by decide)
    (by decide) (by decide)

/-- Claim C5 (counterexample): on the line `1.<TAB>x` the code's regex
`^\d+\.\s` accepts the tab and yields a numbered item, while the claim's
dot-space separator classifies the line as a paragraph. -/
theorem c5_counterexample :
    markdown_to_blocks "1.\tx".toList =
        [Block.numbered_list_item [mkText "x".toList]] ∧
      mdToBlocksClaim "1.\tx".toList =
        [Block.paragraph [mkText "1.\tx".toList]] ∧
      markdown_to_blocks "1.\tx".toList ≠ mdToBlocksClaim "1.\tx".toList := by
  refine ⟨by decide, by decide, by decide⟩

/-- The regex model `numberedMatch` in closed form: it fires exactly when the
line starts with one or more digits, then a dot, then a whitespace character,
and strips that prefix. -/
theorem numberedMatch_spec (line : Str) :
    numberedMatch line =
      if !(line.takeWhile Char.isDigit).isEmpty
          && ((line.dropWhile Char.isDigit).head? == some '.')
          && ((((line.dropWhile Char.isDigit).drop 1).head?.map isPySpace).getD false) then
        some ((line.dropWhile Char.isDigit).drop 2)
      else none := by
  unfold numberedMatch
  cases hd : line.takeWhile Char.isDigit with
  | nil => simp
  | cons d ds =>
    cases hr : line.dropWhile Char.isDigit with
    | nil => simp
    | cons c1 rest1 =>
      simp only [List.isEmpty_cons, Bool.not_false, Bool.true_and, Bool.false_eq_true,
        if_false]
      split
      · rename_i c rest heq
        injection heq with h1 h2
        subst h1
        subst h2
        by_cases hs : isPySpace c <;> simp [hs]
      · rename_i hx
        by_cases hc1 : c1 = '.'
        · subst hc1
          cases rest1 with
          | nil => simp
          | cons c2 rest2 => exact absurd rfl (hx c2 rest2)
        · simp [hc1]

theorem parseLine_eq_amended (line : Str) :
    parseLine line = classifyLineAmended line := by
  unfold parseLine classifyLineAmended
  rw [numberedMatch_spec]
  cases hcond : (!(line.takeWhile Char.isDigit).isEmpty
      && ((line.dropWhile Char.isDigit).head? == some '.')
      && ((((line.dropWhile Char.isDigit).drop 1).head?.map isPySpace).getD false)) <;>
    rfl

/-- Claim C5 (corrected): `markdown_to_blocks` splits on line breaks, skips
whitespace-only lines, preserves line order, and classifies each line by the
fixed-priority prefix test — with the numbered-item separator being a dot
followed by one whitespace character (regex `\s`), not only a literal space. -/
theorem c5_line_classification (markdown : Str) :
    markdown_to_blocks markdown = mdToBlocksAmended markdown := by
  unfold markdown_to_blocks mdToBlocksAmended
  induction markdown.splitOn '\n' with
  | nil => rfl
  | cons line lines ih =>
    rw [List.filterMap_cons, List.filterMap_cons, ih, parseLine_eq_amended]

/-- Claim C9 (confirmed): every handler validates its required arguments
before any registry lookup or remote call; on a missing or empty required
argument it raises at once, and the call trace is empty. -/
theorem c9_validation_first (env : Env) :
    (∀ a : SearchArgs, a.query = [] →
      handle_search env a = (.error "query is required".toList, []))
    ∧ (∀ a : GetPageArgs, a.id = [] →
      handle_get_page env a = (.error "id is required".toList, []))
    ∧ (∀ a : CreatePageArgs, a.parent = [] ∨ a.title = [] →
      handle_create_page env a = (.error "parent and title are required".toList, []))
    ∧ (∀ a : UpdatePageArgs, a.id = [] →
      handle_update_page env a = (.error "id is required".toList, []))
    ∧ (∀ a : DeletePageArgs, a.id = [] →
      handle_delete_page env a = (.error "id is required".toList, []))
    ∧ (∀ a : QueryDatabaseArgs, a.id = [] →
      handle_query_database env a = (.error "id is required".toList, []))
    ∧ (∀ a : UpdateDatabaseArgs, a.id = [] →
      handle_update_database env a = (.error "id is required".toList, [])) := by
  refine ⟨?_, ?_, ?_, ?_, ?_, ?_, ?_⟩
  · intro a h
    simp [handle_search, h]
  · intro a h
    simp [handle_get_page, h]
  · intro a h
    rcases h with h | h <;> simp [handle_create_page, h]
  · intro a h
    simp [handle_update_page, h]
  · intro a h
    simp [handle_delete_page, h]
  · intro a h
    simp [handle_query_database, h]
  · intro a h
    simp [handle_update_database, h]

/-- Witness for C9: the search handler with an absent query. -/
theorem c9_validation_first_witness :
    handle_search {} {} = (.error "query is required".toList, []) :=
  (c9_validation_first {}).1 {} rfl

/-- Claim C10 (confirmed): when the cache answers (some cached row survives
the optional type filter) the results are returned uncapped; when the search
falls through to the API, at most the first `MAX_SEARCH_RESULTS` items are
returned. -/
theorem c10_search_cap (env : Env) (a : SearchArgs) (hq : a.query ≠ []) :
    ((if optTruthy a.type then
        (search_cache env.registry a.query).filter (fun r => r.type == a.type.getD [])
      else search_cache env.registry a.query) ≠ [] →
      handle_search env a =
        (.ok (.searchCache ((if optTruthy a.type then
            (search_cache env.registry a.query).filter (fun r => r.type == a.type.getD [])
          else search_cache env.registry a.query).map (fun r =>
            { id := format_id r.id, name := r.name, type := r.type, path := r.path }))),
          [.cacheSearch a.query])
      ∧ ((if optTruthy a.type then
            (search_cache env.registry a.query).filter (fun r => r.type == a.type.getD [])
          else search_cache env.registry a.query).map (fun r =>
            ({ id := format_id r.id, name := r.name, type := r.type, path := r.path } :
              CacheHit))).length =
          (if optTruthy a.type then
            (search_cache env.registry a.query).filter (fun r => r.type == a.type.getD [])
          else search_cache env.registry a.query).length)
    ∧ ((if optTruthy a.type then
        (search_cache env.registry a.query).filter (fun r => r.type == a.type.getD [])
      else search_cache env.registry a.query) = [] →
      handle_search env a =
        (.ok (.searchApi (((env.apiSearch a.query a.type).take MAX_SEARCH_RESULTS).map
            format_search_result)),
          [.cacheSearch a.query, .apiSearch a.query a.type])
      ∧ (((env.apiSearch a.query a.type).take MAX_SEARCH_RESULTS).map
          format_search_result).length ≤ MAX_SEARCH_RESULTS) := by
  constructor
  · intro h2
    have hc : search_cache env.registry a.query ≠ [] := by
      intro hc
      rw [hc] at h2
      revert h2
      cases hot : optTruthy a.type <;> simp
    constructor
    · unfold handle_search
      rw [if_neg (by simpa using hq)]
      simp only [hc, h2]
      simp [List.isEmpty_iff, hc, h2]
    · exact List.length_map _ _
  · intro h2
    constructor
    · unfold handle_search
      rw [if_neg (by simpa using hq)]
      by_cases hc : search_cache env.registry a.query = []
      · simp [List.isEmpty_iff, hc]
      · simp [List.isEmpty_iff, hc, h2]
    · calc (((env.apiSearch a.query a.type).take MAX_SEARCH_RESULTS).map
            format_search_result).length
          = ((env.apiSearch a.query a.type).take MAX_SEARCH_RESULTS).length :=
            List.length_map _ _
        _ ≤ MAX_SEARCH_RESULTS := List.length_take_le _ _

/-- Witness for C10: an empty registry with twelve API results is capped at
ten. -/
theorem c10_search_cap_witness :
    handle_search env12 { query := "q".toList } =
        (.ok (.searchApi (((env12.apiSearch "q".toList none).take MAX_SEARCH_RESULTS).map
          format_search_result)),
          [.cacheSearch "q".toList, .apiSearch "q".toList none])
      ∧ (((env12.apiSearch "q".toList none).take MAX_SEARCH_RESULTS).map
          format_search_result).length ≤ MAX_SEARCH_RESULTS :=
  (c10_search_cap env12 { query := "q".toList } (by decide)).2 (by decide)

theorem scanClose1_append (p : Str) (r : Str)
    (hp : ∀ c ∈ p, c ≠ '*' ∧ c ≠ '\n') :
    scanClose1 (p ++ '*' :: r) = some (p, r) := by
  induction p with
  | nil => rfl
  | cons c p ih =>
    have hc := hp c (List.mem_cons_self c p)
    rw [List.cons_append]
    unfold scanClose1
    split
    · rename_i rest heq
      injection heq with h1 _
      exact absurd h1 hc.1
    · rename_i c' rest hne1 h1
      injection h1 with hc' hrest
      subst hc'
      subst hrest
      rw [if_neg hc.2, ih (fun d hd => hp d (List.mem_cons_of_mem c hd))]
      rfl
    · rename_i heq
      exact absurd heq (by simp)

theorem scanClose2_append (p : Str) (r : Str)
    (hp : ∀ c ∈ p, c ≠ '*' ∧ c ≠ '\n') :
    scanClose2 (p ++ '*' :: '*' :: r) = some (p, r) := by
  induction p with
  | nil => rfl
  | cons c p ih =>
    have hc := hp c (List.mem_cons_self c p)
    rw [List.cons_append]
    unfold scanClose2
    split
    · rename_i rest heq
      injection heq with h1 _
      exact absurd h1 hc.1
    · rename_i c' rest hne1 h1
      injection h1 with hc' hrest
      subst hc'
      subst hrest
      rw [if_neg hc.2, ih (fun d hd => hp d (List.mem_cons_of_mem c hd))]
      rfl
    · rename_i heq
      exact absurd heq (by simp)

theorem matchLink_not_bracket {c : Char} (rest : Str) (hc : c ≠ '[') :
    matchLink (c :: rest) = none := by
  unfold matchLink
  split
  · rename_i rest' heq
    injection heq with h1 _
    exact absurd h1 hc
  · rfl

theorem matchBold_not_star {c : Char} (rest : Str) (hc : c ≠ '*') :
    matchBold (c :: rest) = none := by
  unfold matchBold
  split
  · rename_i c' rest' heq
    injection heq with h1 _
    exact absurd h1 hc
  · rfl

theorem matchBold_one_star {c : Char} (rest : Str) (hc : c ≠ '*') :
    matchBold ('*' :: c :: rest) = none := by
  unfold matchBold
  split
  · rename_i c' rest' heq
    injection heq with _ h2
    injection h2 with h1 _
    exact absurd h1 hc
  · rfl

theorem matchItalic_not_star {c : Char} (rest : Str) (hc : c ≠ '*') :
    matchItalic (c :: rest) = none := by
  unfold matchItalic
  split
  · rename_i c' rest' heq
    injection heq with h1 _
    exact absurd h1 hc
  · rfl

theorem takeWhile_append_stop {q : Char → Bool} (p : Str) {x : Char} (r : Str)
    (hp : ∀ c ∈ p, q c = true) (hx : q x = false) :
    (p ++ x :: r).takeWhile q = p ∧ (p ++ x :: r).dropWhile q = x :: r := by
  induction p with
  | nil => simp [List.takeWhile, List.dropWhile, hx]
  | cons c p ih =>
    have hc := hp c (List.mem_cons_self c p)
    have := ih (fun d hd => hp d (List.mem_cons_of_mem c hd))
    simp [List.takeWhile_cons, List.dropWhile_cons, hc, this.1, this.2]

theorem matchBold_at {c : Str} (s : Str) (hne : c ≠ [])
    (hc : ∀ d ∈ c, d ≠ '*' ∧ d ≠ '\n') :
    matchBold ('*' :: '*' :: (c ++ '*' :: '*' :: s)) = some (c, s) := by
  cases c with
  | nil => exact absurd rfl hne
  | cons c0 ct =>
    have h0 := hc c0 (List.mem_cons_self c0 ct)
    rw [List.cons_append]
    show (if c0 = '\n' then none
      else (scanClose2 (ct ++ '*' :: '*' :: s)).map (fun pr => (c0 :: pr.1, pr.2))) = _
    rw [if_neg h0.2, scanClose2_append ct s (fun d hd => hc d (List.mem_cons_of_mem c0 hd))]
    rfl

theorem matchItalic_at {c : Str} (s : Str) (hne : c ≠ [])
    (hc : ∀ d ∈ c, d ≠ '*' ∧ d ≠ '\n') :
    matchItalic ('*' :: (c ++ '*' :: s)) = some (c, s) := by
  cases c with
  | nil => exact absurd rfl hne
  | cons c0 ct =>
    have h0 := hc c0 (List.mem_cons_self c0 ct)
    rw [List.cons_append]
    show (if c0 = '\n' then none
      else (scanClose1 (ct ++ '*' :: s)).map (fun pr => (c0 :: pr.1, pr.2))) = _
    rw [if_neg h0.2, scanClose1_append ct s (fun d hd => hc d (List.mem_cons_of_mem c0 hd))]
    rfl

theorem matchLink_at {t u : Str} (s : Str) (hte : t ≠ []) (hue : u ≠ [])
    (ht : ∀ d ∈ t, d ≠ ']') (hu : ∀ d ∈ u, d ≠ ')') :
    matchLink ('[' :: (t ++ ']' :: '(' :: (u ++ ')' :: s))) = some (t, u, s) := by
  have htw := takeWhile_append_stop (q := fun c => c ≠ ']') (x := ']')
    t ('(' :: (u ++ ')' :: s)) (fun d hd => by simpa using ht d hd) (by simp)
  have huw := takeWhile_append_stop (q := fun c => c ≠ ')') (x := ')')
    u s (fun d hd => by simpa using hu d hd) (by simp)
  unfold matchLink
  split
  · rename_i rest h1
    injection h1 with _ hrest
    subst hrest
    simp only [htw.1, htw.2, huw.1, huw.2]
    simp [List.isEmpty_iff, hte, hue]
  · rename_i hx
    exact absurd rfl (hx _)

theorem safeChar_spec {c : Char} (h : safeChar c = true) :
    c ≠ '*' ∧ c ≠ '[' ∧ c ≠ ']' ∧ c ≠ '(' ∧ c ≠ ')' ∧ c ≠ '\n' := by
  unfold safeChar at h
  simp at h
  tauto

theorem safeContent_spec {s : Str} (h : safeContent s = true) :
    s ≠ [] ∧ ∀ c ∈ s, safeChar c = true := by
  unfold safeContent at h
  simp at h
  exact ⟨by simpa [List.isEmpty_iff] using h.1, h.2⟩

theorem urlOk_some_spec {u : Str} (h : urlOk (some u) = true) :
    u ≠ [] ∧ ∀ c ∈ u, c ≠ ')' ∧ c ≠ '\n' := by
  unfold urlOk at h
  simp at h
  exact ⟨by simpa [List.isEmpty_iff] using h.1, fun c hc => (h.2 c hc : _)⟩

theorem isPlainRun_fields {c : Str} {b i : Bool} {lk : Option Str}
    (h : isPlainRun { content := c, bold := b, italic := i, link := lk } = true) :
    b = false ∧ i = false ∧ lk = none := by
  unfold isPlainRun at h
  simp only [Bool.and_eq_true, Bool.not_eq_true', Option.isNone_iff_eq_none] at h
  exact ⟨h.1.1, h.1.2, h.2⟩

theorem plain_eta {r : Run} (h : isPlainRun r = true) : mkText r.content = r := by
  obtain ⟨c, b, i, lk⟩ := r
  obtain ⟨hb, hi, hlk⟩ := isPlainRun_fields h
  subst hb
  subst hi
  subst hlk
  rfl

theorem plain_render {r : Run} (h : isPlainRun r = true) :
    convertRichTextElement r = r.content := by
  obtain ⟨c, b, i, lk⟩ := r
  obtain ⟨hb, hi, hlk⟩ := isPlainRun_fields h
  subst hb
  subst hi
  subst hlk
  rfl

theorem single_style {r : Run} (hs : decide (styleCount r ≤ 1) = true)
    (hnp : isPlainRun r = false) :
    (r.bold = true ∧ r.italic = false ∧ r.link = none) ∨
      (r.bold = false ∧ r.italic = true ∧ r.link = none) ∨
      (∃ u, r.bold = false ∧ r.italic = false ∧ r.link = some u) := by
  obtain ⟨c, b, i, lk⟩ := r
  simp [styleCount] at hs
  simp [isPlainRun] at hnp
  cases b <;> cases i <;> cases lk <;> simp_all

theorem scanRuns_advance (fuel : Nat) (pending : Str) {c : Char} (rest : Str)
    (hc : safeChar c = true) :
    scanRuns (fuel + 1) pending (c :: rest) = scanRuns fuel (pending ++ [c]) rest := by
  obtain ⟨h1, h2, _⟩ := safeChar_spec hc
  simp only [scanRuns]
  rw [matchLink_not_bracket rest h2, matchBold_not_star rest h1,
    matchItalic_not_star rest h1]

theorem scanRuns_plain (p : Str) (hp : ∀ c ∈ p, safeChar c = true) :
    ∀ (fuel : Nat) (pending t : Str),
      scanRuns (p.length + fuel) pending (p ++ t) = scanRuns fuel (pending ++ p) t := by
  induction p with
  | nil => intro fuel pending t; simp
  | cons c p ih =>
    intro fuel pending t
    have hlen : (c :: p).length + fuel = (p.length + fuel) + 1 := by
      simp [List.length_cons]
      omega
    rw [hlen, List.cons_append,
      scanRuns_advance (p.length + fuel) pending (p ++ t) (hp c (List.mem_cons_self c p)),
      ih (fun d hd => hp d (List.mem_cons_of_mem c hd)) fuel (pending ++ [c]) t]
    have h2 : (pending ++ [c]) ++ p = pending ++ c :: p := by simp
    rw [h2]

theorem scanRuns_styled (r : Run) (hs : safeRun r = true) (hnp : isPlainRun r = false)
    (fuel : Nat) (pending s : Str) :
    scanRuns (fuel + 1) pending (convertRichTextElement r ++ s) =
      flushPending pending ++ r :: scanRuns fuel [] s := by
  have hs' := hs
  unfold safeRun at hs'
  simp only [Bool.and_eq_true] at hs'
  obtain ⟨⟨hcont, hurl⟩, hcount⟩ := hs'
  obtain ⟨hcne, hcsafe⟩ := safeContent_spec hcont
  have hcstar : ∀ d ∈ r.content, d ≠ '*' ∧ d ≠ '\n' := fun d hd =>
    ⟨(safeChar_spec (hcsafe d hd)).1, (safeChar_spec (hcsafe d hd)).2.2.2.2.2⟩
  rcases single_style hcount hnp with ⟨hb, hi, hlk⟩ | ⟨hb, hi, hlk⟩ | ⟨u, hb, hi, hlk⟩
  · -- bold run
    have hconv : convertRichTextElement r = '*' :: '*' :: (r.content ++ ['*', '*']) := by
      simp [convertRichTextElement, hb, hi, hlk]
    have htext : convertRichTextElement r ++ s = '*' :: '*' :: (r.content ++ '*' :: '*' :: s) := by
      rw [hconv]
      simp
    rw [htext]
    simp only [scanRuns]
    rw [matchLink_not_bracket _ (by decide), matchBold_at s hcne hcstar]
    have hrb : mkBold r.content = r := by
      obtain ⟨c, b, i, lk⟩ := r
      simp only at hb hi hlk
      subst hb
      subst hi
      subst hlk
      rfl
    simp only [hrb]
  · -- italic run
    obtain ⟨c0, ct, hcc⟩ : ∃ c0 ct, r.content = c0 :: ct := by
      cases hc : r.content with
      | nil => exact absurd hc hcne
      | cons a l => exact ⟨a, l, rfl⟩
    have h0 := hcstar c0 (by rw [hcc]; exact List.mem_cons_self c0 ct)
    have hconv : convertRichTextElement r = '*' :: (r.content ++ ['*']) := by
      simp [convertRichTextElement, hb, hi, hlk]
    have htext : convertRichTextElement r ++ s = '*' :: c0 :: (ct ++ '*' :: s) := by
      rw [hconv, hcc]
      simp
    rw [htext]
    simp only [scanRuns]
    rw [matchLink_not_bracket _ (by decide), matchBold_one_star _ h0.1]
    have hit : matchItalic ('*' :: c0 :: (ct ++ '*' :: s)) = some (c0 :: ct, s) := by
      have := matchItalic_at (c := c0 :: ct) s (by simp)
        (fun d hd => hcstar d (by rw [hcc]; exact hd))
      simpa using this
    rw [hit]
    have hri : mkItalic (c0 :: ct) = r := by
      obtain ⟨c, b, i, lk⟩ := r
      simp only at hb hi hlk hcc
      subst hb
      subst hi
      subst hlk
      rw [← hcc]
      rfl
    simp only [hri]
  · -- link run
    obtain ⟨hune, husafe⟩ := urlOk_some_spec (hlk ▸ hurl)
    have hconv : convertRichTextElement r =
        ('[' :: r.content ++ ']' :: '(' :: u ++ [')'] : Str) := by
      simp [convertRichTextElement, hb, hi, hlk]
    have htext : convertRichTextElement r ++ s =
        '[' :: (r.content ++ ']' :: '(' :: (u ++ ')' :: s)) := by
      rw [hconv]
      simp
    rw [htext]
    simp only [scanRuns]
    rw [matchLink_at s hcne hune
      (fun d hd => (safeChar_spec (hcsafe d hd)).2.2.1)
      (fun d hd => (husafe d hd).1)]
    have hrl : mkLink r.content u = r := by
      obtain ⟨c, b, i, lk⟩ := r
      simp only at hb hi hlk
      subst hb
      subst hi
      subst hlk
      rfl
    simp only [hrl]

theorem noAdjacentPlain_tail {a : Run} {l : List Run}
    (h : noAdjacentPlain (a :: l) = true) : noAdjacentPlain l = true := by
  cases l with
  | nil => rfl
  | cons b l' =>
    unfold noAdjacentPlain at h
    simp only [Bool.and_eq_true] at h
    exact h.2

theorem noAdjacentPlain_head {a b : Run} {l : List Run}
    (h : noAdjacentPlain (a :: b :: l) = true) (ha : isPlainRun a = true) :
    isPlainRun b = false := by
  unfold noAdjacentPlain at h
  simp only [Bool.and_eq_true] at h
  have := h.1
  simp [ha] at this
  simpa using this

theorem render_cons (r : Run) (rs : List Run) :
    rich_text_to_markdown (r :: rs) =
      convertRichTextElement r ++ rich_text_to_markdown rs := by
  simp [rich_text_to_markdown]

theorem scanRuns_render :
    ∀ (rs : List Run) (pending : Str) (fuel : Nat),
      (∀ r ∈ rs, safeRun r = true) → noAdjacentPlain rs = true →
      (∀ r rs', rs = r :: rs' → isPlainRun r = true → pending = []) →
      scanRuns (stepsOf rs + fuel) pending (rich_text_to_markdown rs) =
        flushPending pending ++ rs := by
  intro rs
  induction rs with
  | nil =>
    intro pending fuel _ _ _
    simp [stepsOf, rich_text_to_markdown, scanRuns]
  | cons r rs ih =>
    intro pending fuel hsafe hadj hpend
    have hsr : safeRun r = true := hsafe r (List.mem_cons_self r rs)
    have hsafe' : ∀ x ∈ rs, safeRun x = true := fun x hx =>
      hsafe x (List.mem_cons_of_mem r hx)
    have hadj' := noAdjacentPlain_tail hadj
    rw [render_cons]
    by_cases hplain : isPlainRun r = true
    · have hpe : pending = [] := hpend r rs rfl hplain
      subst hpe
      rw [plain_render hplain]
      have hsteps : stepsOf (r :: rs) + fuel = r.content.length + (stepsOf rs + fuel) := by
        simp [stepsOf, hplain]
        omega
      rw [hsteps, scanRuns_plain r.content
        (safeContent_spec (by
          have := hsr
          unfold safeRun at this
          simp only [Bool.and_eq_true] at this
          exact this.1.1)).2
        (stepsOf rs + fuel) [] (rich_text_to_markdown rs)]
      simp only [List.nil_append]
      have hcne : r.content ≠ [] :=
        (safeContent_spec (by
          have := hsr
          unfold safeRun at this
          simp only [Bool.and_eq_true] at this
          exact this.1.1)).1
      cases rs with
      | nil =>
        simp [stepsOf, rich_text_to_markdown, scanRuns, flushPending,
          List.isEmpty_iff, hcne]
        exact plain_eta hplain
      | cons r2 rs2 =>
        have hr2 : isPlainRun r2 = false := noAdjacentPlain_head hadj hplain
        rw [ih r.content fuel hsafe' hadj' (fun r' rs'' heq hpl => by
          rw [List.cons.injEq] at heq
          exact absurd hpl (heq.1 ▸ (by simp [hr2])))]
        have hflush : flushPending r.content = [mkText r.content] := by
          simp [flushPending, List.isEmpty_iff, hcne]
        rw [hflush, plain_eta hplain]
        simp [flushPending]
    · have hnp : isPlainRun r = false := by simpa using hplain
      have hsteps : stepsOf (r :: rs) + fuel = (stepsOf rs + fuel) + 1 := by
        simp [stepsOf, hnp]
        omega
      rw [hsteps, scanRuns_styled r hsr hnp (stepsOf rs + fuel) pending
        (rich_text_to_markdown rs),
        ih [] fuel hsafe' hadj' (fun _ _ _ _ => rfl)]
      simp [flushPending]

theorem step_le_render_length (r : Run) (h : safeRun r = true) :
    (if isPlainRun r then r.content.length else 1) ≤ (convertRichTextElement r).length := by
  by_cases hp : isPlainRun r = true
  · rw [if_pos hp, plain_render hp]
  · have hnp : isPlainRun r = false := by simpa using hp
    rw [if_neg (by simp [hnp])]
    have hs' := h
    unfold safeRun at hs'
    simp only [Bool.and_eq_true] at hs'
    rcases single_style hs'.2 hnp with ⟨hb, hi, hlk⟩ | ⟨hb, hi, hlk⟩ | ⟨u, hb, hi, hlk⟩
    · have : convertRichTextElement r = '*' :: '*' :: (r.content ++ ['*', '*']) := by
        simp [convertRichTextElement, hb, hi, hlk]
      simp [this]
    · have : convertRichTextElement r = '*' :: (r.content ++ ['*']) := by
        simp [convertRichTextElement, hb, hi, hlk]
      simp [this]
    · have : convertRichTextElement r =
          ('[' :: r.content ++ ']' :: '(' :: u ++ [')'] : Str) := by
        simp [convertRichTextElement, hb, hi, hlk]
      simp [this]

theorem stepsOf_le_render_length (rs : List Run) (h : ∀ r ∈ rs, safeRun r = true) :
    stepsOf rs ≤ (rich_text_to_markdown rs).length := by
  induction rs with
  | nil => simp [stepsOf, rich_text_to_markdown]
  | cons r rs ih =>
    rw [render_cons]
    have h1 := step_le_render_length r (h r (List.mem_cons_self r rs))
    have h2 := ih (fun x hx => h x (List.mem_cons_of_mem r hx))
    simp only [stepsOf, List.map_cons, List.sum_cons, List.length_append]
    have h2' : stepsOf rs ≤ (rich_text_to_markdown rs).length := h2
    simp only [stepsOf] at h2'
    omega

/-- The inline round trip: rendering a faithful run sequence and re-scanning
it with the inline pattern reproduces it exactly. -/
theorem parse_render_eq (rs : List Run) (h : runsOK rs = true) :
    parse_rich_text (rich_text_to_markdown rs) = rs := by
  unfold runsOK at h
  simp only [Bool.and_eq_true] at h
  obtain ⟨⟨hne, hall⟩, hadj⟩ := h
  have hne' : rs ≠ [] := by
    simpa [List.isEmpty_iff] using hne
  have hall' : ∀ r ∈ rs, safeRun r = true := by
    simpa [List.all_eq_true] using hall
  have hle := stepsOf_le_render_length rs hall'
  have heq := scanRuns_render rs []
    ((rich_text_to_markdown rs).length - stepsOf rs) hall' hadj (fun _ _ _ _ => rfl)
  rw [Nat.add_sub_cancel' hle] at heq
  unfold parse_rich_text
  rw [heq]
  simp [flushPending, List.isEmpty_iff, hne']

/-- Claim C2 (counterexample): a single run layered bold+italic renders as
`***abc***`, which re-parses as a bold run `*abc` followed by a plain `*` —
content, flags and run count are all wrong, not merely marker placement. -/
theorem c2_counterexample :
    parse_rich_text (rich_text_to_markdown [boldItalicRun]) =
        [{ content := "*abc".toList, bold := true }, mkText "*".toList] ∧
      (parse_rich_text (rich_text_to_markdown [boldItalicRun])).map Run.content ≠
        [boldItalicRun.content] ∧
      ∀ r ∈ parse_rich_text (rich_text_to_markdown [boldItalicRun]),
        ¬(r.bold = true ∧ r.italic = true) := by
  refine ⟨by decide, by decide, by decide⟩

/-- Claim C2 (corrected): concatenating the rendered Markdown of a nonempty
run sequence and re-parsing reproduces the runs exactly, provided each run
carries at most one style layer (bold, italic or link), nonempty content free
of the marker characters, a well-formed link target, and no two adjacent
unstyled runs; layered bold+italic+link runs do not survive. -/
theorem c2_inline_roundtrip (rs : List Run) (h : runsOK rs = true) :
    parse_rich_text (rich_text_to_markdown rs) = rs :=
  parse_render_eq rs h

/-- Witness for the amended C2. -/
theorem c2_inline_roundtrip_witness :
    parse_rich_text (rich_text_to_markdown demoRuns) = demoRuns :=
  c2_inline_roundtrip demoRuns (by decide)

theorem pyStrip_eq_nil_iff (l : Str) :
    pyStrip l = [] ↔ ∀ c ∈ l, isPySpace c = true := by
  unfold pyStrip
  rw [List.reverse_eq_nil_iff, List.dropWhile_eq_nil_iff]
  constructor
  · intro h c hc
    have hc' : c ∈ l.takeWhile isPySpace ++ l.dropWhile isPySpace := by
      rw [List.takeWhile_append_dropWhile]
      exact hc
    rcases List.mem_append.mp hc' with h1 | h2
    · exact List.mem_takeWhile_imp h1
    · exact h c (List.mem_reverse.mpr h2)
  · intro h c hc
    exact h c (List.dropWhile_subset _ (List.mem_reverse.mp hc))

theorem pyStrip_cons_ne {c : Char} (hc : isPySpace c = false) (s : Str) :
    pyStrip (c :: s) ≠ [] := by
  intro h
  have := (pyStrip_eq_nil_iff _).mp h c (List.mem_cons_self c s)
  rw [this] at hc
  exact Bool.noConfusion hc

theorem char_not_mem_cons {c d : Char} {l : Str} (h1 : c ≠ d) (h2 : c ∉ l) :
    c ∉ d :: l := by
  intro hm
  rcases List.mem_cons.mp hm with h | h
  · exact h1 h
  · exact h2 h

theorem char_not_mem_append {c : Char} {l1 l2 : Str} (h1 : c ∉ l1) (h2 : c ∉ l2) :
    c ∉ l1 ++ l2 := by
  intro hm
  rcases List.mem_append.mp hm with h | h
  · exact h1 h
  · exact h2 h

theorem run_render_no_newline {r : Run} (h : safeRun r = true) :
    '\n' ∉ convertRichTextElement r := by
  have hs' := h
  unfold safeRun at hs'
  simp only [Bool.and_eq_true] at hs'
  obtain ⟨⟨hcont, hurl⟩, hcount⟩ := hs'
  have hcn : '\n' ∉ r.content := fun hm =>
    ((safeChar_spec ((safeContent_spec hcont).2 _ hm)).2.2.2.2.2) rfl
  by_cases hp : isPlainRun r = true
  · rw [plain_render hp]
    exact hcn
  · have hnp : isPlainRun r = false := by simpa using hp
    rcases single_style hcount hnp with ⟨hb, hi, hlk⟩ | ⟨hb, hi, hlk⟩ | ⟨u, hb, hi, hlk⟩
    · have hconv : convertRichTextElement r = '*' :: '*' :: (r.content ++ ['*', '*']) := by
        simp [convertRichTextElement, hb, hi, hlk]
      rw [hconv]
      exact char_not_mem_cons (by decide) (char_not_mem_cons (by decide)
        (char_not_mem_append hcn (by decide)))
    · have hconv : convertRichTextElement r = '*' :: (r.content ++ ['*']) := by
        simp [convertRichTextElement, hb, hi, hlk]
      rw [hconv]
      exact char_not_mem_cons (by decide) (char_not_mem_append hcn (by decide))
    · have hun : '\n' ∉ u := fun hm => (((urlOk_some_spec (hlk ▸ hurl)).2 _ hm).2) rfl
      have hconv : convertRichTextElement r =
          ('[' :: r.content ++ ']' :: '(' :: u ++ [')'] : Str) := by
        simp [convertRichTextElement, hb, hi, hlk]
      rw [hconv]
      exact char_not_mem_append
        (char_not_mem_append (char_not_mem_cons (by decide) hcn)
          (char_not_mem_cons (by decide) (char_not_mem_cons (by decide) hun)))
        (by decide)

theorem render_no_newline (rs : List Run) (hall : ∀ r ∈ rs, safeRun r = true) :
    '\n' ∉ rich_text_to_markdown rs := by
  intro hm
  unfold rich_text_to_markdown at hm
  rcases List.mem_flatten.mp hm with ⟨l, hl, hcl⟩
  rcases List.mem_map.mp hl with ⟨r, hr, rfl⟩
  exact run_render_no_newline (hall r hr) hcl

theorem runsOK_safe {rs : List Run} (h : runsOK rs = true) :
    ∀ r ∈ rs, safeRun r = true := by
  unfold runsOK at h
  simp only [Bool.and_eq_true] at h
  simpa [List.all_eq_true] using h.1.2

theorem block_line_no_newline {b : Block} (h : blockOK b = true) :
    '\n' ∉ convertBlock b := by
  cases b with
  | heading_1 rt =>
    show '\n' ∉ '#' :: ' ' :: rich_text_to_markdown rt
    exact char_not_mem_cons (by decide) (char_not_mem_cons (by decide)
      (render_no_newline rt (runsOK_safe (by simpa [blockOK] using h))))
  | heading_2 rt =>
    show '\n' ∉ '#' :: '#' :: ' ' :: rich_text_to_markdown rt
    exact char_not_mem_cons (by decide) (char_not_mem_cons (by decide)
      (char_not_mem_cons (by decide)
        (render_no_newline rt (runsOK_safe (by simpa [blockOK] using h)))))
  | heading_3 rt =>
    show '\n' ∉ '#' :: '#' :: '#' :: ' ' :: rich_text_to_markdown rt
    exact char_not_mem_cons (by decide) (char_not_mem_cons (by decide)
      (char_not_mem_cons (by decide) (char_not_mem_cons (by decide)
        (render_no_newline rt (runsOK_safe (by simpa [blockOK] using h))))))
  | paragraph rt =>
    have h2 : runsOK rt = true := by
      have := h
      simp only [blockOK, Bool.and_eq_true] at this
      exact this.1
    exact render_no_newline rt (runsOK_safe h2)
  | bulleted_list_item rt =>
    show '\n' ∉ '-' :: ' ' :: rich_text_to_markdown rt
    exact char_not_mem_cons (by decide) (char_not_mem_cons (by decide)
      (render_no_newline rt (runsOK_safe (by simpa [blockOK] using h))))
  | numbered_list_item rt =>
    show '\n' ∉ '1' :: '.' :: ' ' :: rich_text_to_markdown rt
    exact char_not_mem_cons (by decide) (char_not_mem_cons (by decide)
      (char_not_mem_cons (by decide)
        (render_no_newline rt (runsOK_safe (by simpa [blockOK] using h)))))
  | quote rt =>
    show '\n' ∉ '>' :: ' ' :: rich_text_to_markdown rt
    exact char_not_mem_cons (by decide) (char_not_mem_cons (by decide)
      (render_no_newline rt (runsOK_safe (by simpa [blockOK] using h))))
  | divider => exact absurd h (by simp [blockOK])
  | code rt lang => exact absurd h (by simp [blockOK])
  | other tag => exact absurd h (by simp [blockOK])

theorem parseLine_prefixed_h1 (X : Str) :
    parseLine ('#' :: ' ' :: X) = Block.heading_1 (parse_rich_text X) := by
  simp [parseLine, List.isPrefixOf]

theorem parseLine_prefixed_h2 (X : Str) :
    parseLine ('#' :: '#' :: ' ' :: X) = Block.heading_2 (parse_rich_text X) := by
  simp [parseLine, List.isPrefixOf]

theorem parseLine_prefixed_h3 (X : Str) :
    parseLine ('#' :: '#' :: '#' :: ' ' :: X) = Block.heading_3 (parse_rich_text X) := by
  simp [parseLine, List.isPrefixOf]

theorem parseLine_prefixed_quote (X : Str) :
    parseLine ('>' :: ' ' :: X) = Block.quote (parse_rich_text X) := by
  simp [parseLine, List.isPrefixOf, numberedMatch]

theorem parseLine_prefixed_bullet (X : Str) :
    parseLine ('-' :: ' ' :: X) = Block.bulleted_list_item (parse_rich_text X) := by
  simp [parseLine, List.isPrefixOf, numberedMatch]

theorem parseLine_prefixed_numbered (X : Str) :
    parseLine ('1' :: '.' :: ' ' :: X) = Block.numbered_list_item (parse_rich_text X) := by
  simp [parseLine, List.isPrefixOf, numberedMatch, isPySpace]

/-- Each faithful block renders to a non-blank line that the line classifier
maps back to the original block. -/
theorem parseLine_convertBlock {b : Block} (h : blockOK b = true) :
    pyStrip (convertBlock b) ≠ [] ∧ parseLine (convertBlock b) = b := by
  cases b with
  | heading_1 rt =>
    refine ⟨pyStrip_cons_ne (by decide) _, ?_⟩
    rw [show convertBlock (Block.heading_1 rt) = '#' :: ' ' :: rich_text_to_markdown rt
        from rfl,
      parseLine_prefixed_h1, parse_render_eq rt (by simpa [blockOK] using h)]
  | heading_2 rt =>
    refine ⟨pyStrip_cons_ne (by decide) _, ?_⟩
    rw [show convertBlock (Block.heading_2 rt) = '#' :: '#' :: ' ' :: rich_text_to_markdown rt
        from rfl,
      parseLine_prefixed_h2, parse_render_eq rt (by simpa [blockOK] using h)]
  | heading_3 rt =>
    refine ⟨pyStrip_cons_ne (by decide) _, ?_⟩
    rw [show convertBlock (Block.heading_3 rt) =
        '#' :: '#' :: '#' :: ' ' :: rich_text_to_markdown rt from rfl,
      parseLine_prefixed_h3, parse_render_eq rt (by simpa [blockOK] using h)]
  | paragraph rt =>
    have hb : runsOK rt = true ∧ lineIsPlainText (rich_text_to_markdown rt) = true := by
      simpa [blockOK] using h
    have hl := hb.2
    unfold lineIsPlainText at hl
    simp only [Bool.and_eq_true, Bool.not_eq_true'] at hl
    obtain ⟨⟨⟨⟨⟨⟨hs, h3⟩, h2⟩, h1⟩, hq⟩, hbl⟩, hnum⟩ := hl
    constructor
    · show pyStrip (rich_text_to_markdown rt) ≠ []
      simpa [List.isEmpty_iff] using hs
    · show parseLine (rich_text_to_markdown rt) = Block.paragraph rt
      unfold parseLine
      rw [h3, h2, h1, hq, hbl]
      simp only [Bool.false_eq_true, if_false]
      rw [Option.isNone_iff_eq_none.mp hnum, parse_render_eq rt hb.1]
  | bulleted_list_item rt =>
    refine ⟨pyStrip_cons_ne (by decide) _, ?_⟩
    rw [show convertBlock (Block.bulleted_list_item rt) =
        '-' :: ' ' :: rich_text_to_markdown rt from rfl,
      parseLine_prefixed_bullet, parse_render_eq rt (by simpa [blockOK] using h)]
  | numbered_list_item rt =>
    refine ⟨pyStrip_cons_ne (by decide) _, ?_⟩
    rw [show convertBlock (Block.numbered_list_item rt) =
        '1' :: '.' :: ' ' :: rich_text_to_markdown rt from rfl,
      parseLine_prefixed_numbered, parse_render_eq rt (by simpa [blockOK] using h)]
  | quote rt =>
    refine ⟨pyStrip_cons_ne (by decide) _, ?_⟩
    rw [show convertBlock (Block.quote rt) = '>' :: ' ' :: rich_text_to_markdown rt
        from rfl,
      parseLine_prefixed_quote, parse_render_eq rt (by simpa [blockOK] using h)]
  | divider => exact absurd h (by simp [blockOK])
  | code rt lang => exact absurd h (by simp [blockOK])
  | other tag => exact absurd h (by simp [blockOK])

theorem filterMap_parse_lines (bs : List Block) (h : ∀ b ∈ bs, blockOK b = true) :
    (bs.map convertBlock).filterMap (fun line =>
      if (pyStrip line).isEmpty then none else some (parseLine line)) = bs := by
  induction bs with
  | nil => rfl
  | cons b bs ih =>
    obtain ⟨hstrip, hparse⟩ := parseLine_convertBlock (h b (List.mem_cons_self b bs))
    rw [List.map_cons, List.filterMap_cons,
      if_neg (by simpa [List.isEmpty_iff] using hstrip), hparse,
      ih (fun x hx => h x (List.mem_cons_of_mem b hx))]

/-- Claim C1 (counterexample): a divider block renders as the line `---`,
which the parser reads back as a paragraph whose text is `---` — the block
type does not survive, and this is covered by neither stated exception. -/
theorem c1_counterexample :
    blocks_to_markdown [Block.divider] = "---".toList ∧
      markdown_to_blocks (blocks_to_markdown [Block.divider]) =
        [Block.paragraph [mkText "---".toList]] ∧
      markdown_to_blocks (blocks_to_markdown [Block.divider]) ≠ [Block.divider] := by
  refine ⟨by decide, by decide, by decide⟩

/-- Claim C1 (corrected): the round trip `markdown_to_blocks ∘
blocks_to_markdown` is the identity on block sequences drawn from the seven
single-line rich-text kinds (heading 1-3, paragraph, bulleted and numbered
items, quote) whose runs are faithful in the sense of the amended C2, and
whose paragraph text renders to a non-blank line matching no line prefix;
divider and code blocks do not survive re-parsing. -/
theorem c1_blocks_roundtrip (bs : List Block) (h : ∀ b ∈ bs, blockOK b = true) :
    markdown_to_blocks (blocks_to_markdown bs) = bs := by
  cases bs with
  | nil => rfl
  | cons b bs' =>
    have hsplit : (blocks_to_markdown (b :: bs')).splitOn '\n' =
        (b :: bs').map convertBlock := by
      unfold blocks_to_markdown
      exact List.splitOn_intercalate _ _
        (fun l hl => by
          rcases List.mem_map.mp hl with ⟨x, hx, rfl⟩
          exact block_line_no_newline (h x hx))
        (by simp)
    unfold markdown_to_blocks
    rw [hsplit]
    exact filterMap_parse_lines (b :: bs') h

/-- Witness for the amended C1 on the spec's three-block scenario. -/
theorem c1_blocks_roundtrip_witness :
    markdown_to_blocks (blocks_to_markdown demoBlocks) = demoBlocks :=
  c1_blocks_roundtrip demoBlocks (by decide)

end NotionLite
